import Mathlib

/-!
# Cshell: the command-line parsing and pipeline-execution engine of `cshell.c`

A shallow embedding of `main` of `src/cshell.c`.  The shell process is a state
(`Shell`) that is threaded through the loops of `main`; every system call the
shell makes is appended to `Shell.trace`.  The answers of the operating system
that the program cannot determine itself (does `pipe`/`fork`/`open`/`execvp`
succeed, what does `wait` store) are read from an environment `Env`.  A forked
child is run to its `execvp` (or to its `exit(1)`) on a copy of the descriptor
table of the parent, and the run is recorded in the `fork` event.

Strings are lists of characters, a `char *` that may be `NULL` is an `Option`.
The installation of the `SIGINT` handler at the start of `main` and the `free`
calls are not part of the model; a `wait` interrupted by a signal is a `wait`
that fails.
-/

namespace Cshell

/-! ## Constants and strings -/

def MAX_INPUT : Nat := 1024

def HISTORY_SIZE : Nat := 100

abbrev Str := List Char

/-- Worker of `strtokAll`: `cur` holds, reversed, the characters of the token
being scanned. -/
def strtokAux (delims : List Char) : List Char → List Char → List Str
  | [], cur => if cur = [] then [] else [cur.reverse]
  | c :: cs, cur =>
    if c ∈ delims then
      (if cur = [] then strtokAux delims cs []
       else cur.reverse :: strtokAux delims cs [])
    else strtokAux delims cs (c :: cur)

/-- All tokens that `strtok(s, delims)` followed by `strtok(NULL, delims)`
returns until it answers `NULL`: the maximal runs of non-delimiter characters
of `s`, in order. -/
def strtokAll (delims : List Char) (s : Str) : List Str :=
  strtokAux delims s []

/-- The C string found at the start of `s` once `strtok(s, delims)` has run on
it: `strtok` skips the leading delimiters, scans the first token and overwrites
the delimiter that ends this token with NUL (later calls only write further to
the right). -/
def cstrAfterStrtok (delims : List Char) (s : Str) : Str :=
  s.takeWhile (fun c => decide (c ∈ delims)) ++
    (s.dropWhile (fun c => decide (c ∈ delims))).takeWhile (fun c => decide (c ∉ delims))

/-- The test `strchr(s, c) != NULL`. -/
def strchr (s : Str) (c : Char) : Bool := decide (c ∈ s)

/-- The macro `WEXITSTATUS`: bits 8..15 of the status word. -/
def WEXITSTATUS (status : Nat) : Nat := (status / 256) % 256

/-! ## Redirection and pipe detection (lines 98-128) -/

/-- The five variables `input_redirect`, `output_redirect`, `append_redirect`,
`input_file`, `output_file`. -/
structure Redirect where
  input_redirect : Bool
  output_redirect : Bool
  append_redirect : Bool
  input_file : Option Str
  output_file : Option Str
deriving DecidableEq, Repr

/-- Values of the redirection variables at their declaration (lines 99-100). -/
def Redirect.init : Redirect := ⟨false, false, false, none, none⟩

/-- The loop of lines 101-117 over `args[j..arg_index-1]`: the list argument is
`args[j], args[j+1], ...`, so that `args[j + 1]` is the head of the tail, or the
terminating `NULL` of the array when `j + 1 = arg_index`.  Returns the scanned
part of the array after the loop and the redirection variables. -/
def detectRedirect : List (Option Str) → Redirect → List (Option Str) × Redirect
  | [], r => ([], r)
  | none :: rest, r =>
    let res := detectRedirect rest r
    (none :: res.1, res.2)
  | some a :: rest, r =>
    let next : Option Str := rest.head?.join
    if a = ['<'] then
      let res := detectRedirect rest { r with input_redirect := true, input_file := next }
      (none :: res.1, res.2)
    else if a = ['>'] then
      let res := detectRedirect rest { r with output_redirect := true, output_file := next }
      (none :: res.1, res.2)
    else if a = ['>', '>'] then
      let res := detectRedirect rest { r with append_redirect := true, output_file := next }
      (none :: res.1, res.2)
    else
      let res := detectRedirect rest r
      (some a :: res.1, res.2)

/-- The loop of lines 122-128, from index `j` on: returns the array after the
loop and the entries written to `pipe_positions` (`num_pipes` is the length of
this list). -/
def detectPipes : List (Option Str) → Nat → List (Option Str) × List Nat
  | [], _ => ([], [])
  | a :: rest, j =>
    let res := detectPipes rest (j + 1)
    if a = some ['|'] then (none :: res.1, j :: res.2) else (a :: res.1, res.2)

/-- The argument vector that `execvp` reads at `args + start`: the entries from
index `start` up to the first `NULL`. -/
def argvAt (args : List (Option Str)) (start : Nat) : List Str :=
  ((args.drop start).takeWhile Option.isSome).filterMap id

/-- The pointer `args[start]` (`NULL` at the terminator of the array). -/
def argAt (args : List (Option Str)) (start : Nat) : Option Str :=
  (args.get? start).join

/-! ## Descriptor tables -/

/-- How a file is opened: `O_RDONLY`, `O_WRONLY | O_CREAT | O_TRUNC` (mode 0600),
`O_WRONLY | O_CREAT | O_APPEND` (mode 0600). -/
inductive OpenMode where
  | rdonly
  | truncate
  | append
deriving DecidableEq, Repr

/-- What a descriptor refers to: something the shell was started with, an end of
the pipe made by the `id`-th `pipe` call of the shell, or a file opened by
`open`. -/
inductive Obj where
  | inherited (fd : Nat)
  | pipeRead (id : Nat)
  | pipeWrite (id : Nat)
  | file (path : Str) (mode : OpenMode)
deriving DecidableEq, Repr

/-- A descriptor table: entry `fd` is `none` when `fd` is not open. -/
abbrev FdTable := List (Option Obj)

def fdGet (t : FdTable) (fd : Nat) : Option Obj := (t.get? fd).join

def fdSet (t : FdTable) (fd : Nat) (o : Option Obj) : FdTable :=
  if fd < t.length then t.set fd o
  else t ++ List.replicate (fd - t.length) none ++ [o]

/-- The descriptor the kernel hands out next: the lowest one that is not open. -/
def lowestFree : FdTable → Nat
  | [] => 0
  | none :: _ => 0
  | some _ :: rest => lowestFree rest + 1

/-! ## Child processes -/

/-- System and library calls of a child between `fork` and `execvp`. -/
inductive Sys where
  | openFile (path : Option Str) (mode : OpenMode) (result : Option Nat)
  | dup2 (oldfd newfd : Nat)
  | close (fd : Nat)
  | perror (msg : String)
  | execvp (file : Option Str) (argv : List Str) (ok : Bool)
  | exit (code : Nat)
deriving DecidableEq, Repr

/-- A child process: its descriptor table and the calls it has made. -/
structure Proc where
  fds : FdTable
  sys : List Sys
deriving DecidableEq, Repr

/-- Answers of the operating system.  `pipeOk n`, `forkOk n`: does the `n`-th
`pipe` / `fork` call of the shell succeed; `waitRes n`: the status word stored
by the `n`-th `wait` call (`none` when `wait` fails and stores nothing);
`openOk n f m`, `execOk n f argv`: does the child made by the `n`-th `fork` call
succeed in opening `f` in mode `m` / in executing `f`. -/
structure Env where
  pipeOk : Nat → Bool
  forkOk : Nat → Bool
  waitRes : Nat → Option Nat
  openOk : Nat → Str → OpenMode → Bool
  execOk : Nat → Str → List Str → Bool

/-- The call `open(path, flags)`: fails on a `NULL` path, otherwise as the
environment says; a new descriptor is the lowest free one. -/
def Proc.sysOpen (env : Env) (idx : Nat) (p : Proc) (path : Option Str) (mode : OpenMode) :
    Proc × Option Nat :=
  match path with
  | none => ({ p with sys := p.sys ++ [Sys.openFile none mode none] }, none)
  | some f =>
    if env.openOk idx f mode then
      let fd := lowestFree p.fds
      ({ fds := fdSet p.fds fd (some (Obj.file f mode)),
         sys := p.sys ++ [Sys.openFile path mode (some fd)] }, some fd)
    else ({ p with sys := p.sys ++ [Sys.openFile path mode none] }, none)

/-- The call `dup2(oldfd, newfd)`: nothing happens when `oldfd` is not open. -/
def Proc.sysDup2 (p : Proc) (oldfd newfd : Nat) : Proc :=
  { fds := match fdGet p.fds oldfd with
           | none => p.fds
           | some o => fdSet p.fds newfd (some o),
    sys := p.sys ++ [Sys.dup2 oldfd newfd] }

/-- The call `close(fd)`. -/
def Proc.sysClose (p : Proc) (fd : Nat) : Proc :=
  { fds := fdSet p.fds fd none, sys := p.sys ++ [Sys.close fd] }

/-- The two statements `perror(msg); exit(1);` of a child. -/
def Proc.die (p : Proc) (msg : String) : Proc :=
  { p with sys := p.sys ++ [Sys.perror msg, Sys.exit 1] }

/-- The three statements `execvp(file, argv); perror("execvp failed"); exit(1);`:
`execvp` returns only when it fails.  On a `NULL` file the call does not
return either: the C library reads the name and the child is killed inside the
call, so its calls end there. -/
def Proc.sysExecvp (env : Env) (idx : Nat) (p : Proc) (file : Option Str) (argv : List Str) :
    Proc :=
  match file with
  | none => { p with sys := p.sys ++ [Sys.execvp none argv false] }
  | some f =>
    if env.execOk idx f argv then { p with sys := p.sys ++ [Sys.execvp file argv true] }
    else Proc.die { p with sys := p.sys ++ [Sys.execvp file argv false] } "execvp failed"

/-- The block `fd = open(path, flags); if (fd < 0) { perror(msg); exit(1); }
dup2(fd, target); close(fd);`.  `Except.error` carries a child that has exited. -/
def redirectFd (env : Env) (idx : Nat) (p : Proc) (path : Option Str) (mode : OpenMode)
    (target : Nat) (msg : String) : Except Proc Proc :=
  match Proc.sysOpen env idx p path mode with
  | (p1, none) => Except.error (Proc.die p1 msg)
  | (p1, some fd) => Except.ok (Proc.sysClose (Proc.sysDup2 p1 fd target) fd)

/-- The child of the `i`-th iteration of the spawn loop of a pipeline
(lines 142-182), started on the descriptor table `fds`. -/
def pipelineChild (env : Env) (idx : Nat) (fds : FdTable) (i num_pipes : Nat) (r : Redirect)
    (pipefds : List Nat) (args : List (Option Str)) (cmd_start : Nat) : Proc :=
  let p0 : Proc := ⟨fds, []⟩
  match (if i = 0 ∧ r.input_redirect = true then
           redirectFd env idx p0 r.input_file OpenMode.rdonly 0 "open input file failed"
         else Except.ok p0) with
  | Except.error dead => dead
  | Except.ok p1 =>
    match (if i = num_pipes ∧ (r.output_redirect = true ∨ r.append_redirect = true) then
             redirectFd env idx p1 r.output_file
               (if r.output_redirect = true then OpenMode.truncate else OpenMode.append)
               1 "open output file failed"
           else Except.ok p1) with
    | Except.error dead => dead
    | Except.ok p2 =>
      let p3 := if i < num_pipes then Proc.sysDup2 p2 (pipefds.getD (i * 2 + 1) 0) 1 else p2
      let p4 := if i > 0 then Proc.sysDup2 p3 (pipefds.getD ((i - 1) * 2) 0) 0 else p3
      let p5 := pipefds.foldl Proc.sysClose p4
      Proc.sysExecvp env idx p5 (argAt args cmd_start) (argvAt args cmd_start)

/-- The child of a command without pipe (lines 204-237). -/
def singleChild (env : Env) (idx : Nat) (fds : FdTable) (r : Redirect)
    (args : List (Option Str)) : Proc :=
  let p0 : Proc := ⟨fds, []⟩
  match (if r.input_redirect = true then
           redirectFd env idx p0 r.input_file OpenMode.rdonly 0 "open input file failed"
         else Except.ok p0) with
  | Except.error dead => dead
  | Except.ok p1 =>
    match (if r.output_redirect = true then
             redirectFd env idx p1 r.output_file OpenMode.truncate 1 "open output file failed"
           else Except.ok p1) with
    | Except.error dead => dead
    | Except.ok p2 =>
      match (if r.append_redirect = true then
               redirectFd env idx p2 r.output_file OpenMode.append 1 "open append file failed"
             else Except.ok p2) with
      | Except.error dead => dead
      | Except.ok p3 => Proc.sysExecvp env idx p3 (argAt args 0) (argvAt args 0)

/-! ## The shell process -/

/-- Calls of the shell process itself. -/
inductive Event where
  | print (s : String)
  | printHistory (n : Nat) (line : Str)
  | pipe (result : Option (Nat × Nat))
  | fork (child : Option Proc)
  | close (fd : Nat)
  | wait (result : Option Nat)
  | perror (msg : String)
  | exit (code : Nat)
deriving DecidableEq, Repr

/-- State of the shell process: descriptor table, the variable `status`, the
history buffer, the numbers of `pipe`, `fork` and `wait` calls made so far, and
the calls made so far. -/
structure Shell where
  fds : FdTable
  status : Nat
  history : List Str
  pipes : Nat
  forks : Nat
  waits : Nat
  trace : List Event
deriving DecidableEq, Repr

/-- How the body of the loop over the sub-commands ends: with the next
iteration, with `break`, or with `exit(code)` of the shell. -/
inductive Ctl where
  | next
  | brk
  | exit (code : Nat)
deriving DecidableEq, Repr

def Shell.emit (st : Shell) (es : List Event) : Shell :=
  { st with trace := st.trace ++ es }

/-- The loop of lines 133-138 with `n` iterations left; `pipefds` holds the
entries written so far.  `none` when the shell has called `exit(1)`. -/
def allocPipes (env : Env) : Nat → Shell → List Nat → Shell × Option (List Nat)
  | 0, st, pipefds => (st, some pipefds)
  | n + 1, st, pipefds =>
    if env.pipeOk st.pipes then
      let rd := lowestFree st.fds
      let t1 := fdSet st.fds rd (some (Obj.pipeRead st.pipes))
      let wr := lowestFree t1
      let t2 := fdSet t1 wr (some (Obj.pipeWrite st.pipes))
      allocPipes env n
        { st with fds := t2, pipes := st.pipes + 1,
                  trace := st.trace ++ [Event.pipe (some (rd, wr))] }
        (pipefds ++ [rd, wr])
    else
      ({ st with pipes := st.pipes + 1,
                 trace := st.trace ++ [Event.pipe none, Event.perror "pipe failed",
                                       Event.exit 1] }, none)

/-- The loop of lines 140-189 with `n` iterations left, at loop variable `i` and
with the current value of `cmd_start`.  `false` when the shell has called
`exit(1)`. -/
def spawnAll (env : Env) (num_pipes : Nat) (r : Redirect) (pipefds : List Nat)
    (pipe_positions : List Nat) (args : List (Option Str)) (arg_index : Nat) :
    Nat → Nat → Nat → Shell → Shell × Bool
  | 0, _, _, st => (st, true)
  | n + 1, i, cmd_start, st =>
    if env.forkOk st.forks then
      let child := pipelineChild env st.forks st.fds i num_pipes r pipefds args cmd_start
      spawnAll env num_pipes r pipefds pipe_positions args arg_index n (i + 1)
        (if i < num_pipes then pipe_positions.getD i 0 + 1 else arg_index)
        { st with forks := st.forks + 1, trace := st.trace ++ [Event.fork (some child)] }
    else
      ({ st with forks := st.forks + 1,
                 trace := st.trace ++ [Event.fork none, Event.perror "fork failed",
                                       Event.exit 1] }, false)

/-- The call `close(fd)` of the shell. -/
def Shell.sysClose (st : Shell) (fd : Nat) : Shell :=
  { st with fds := fdSet st.fds fd none, trace := st.trace ++ [Event.close fd] }

/-- The call `wait(NULL)` (`store = false`) or `wait(&status)` (`store = true`). -/
def Shell.sysWait (env : Env) (st : Shell) (store : Bool) : Shell :=
  let res := env.waitRes st.waits
  { st with waits := st.waits + 1,
            status := (match store, res with
                       | true, some s => s
                       | _, _ => st.status),
            trace := st.trace ++ [Event.wait res] }

/-- The loop of lines 195-197 with `n` iterations. -/
def waitAll (env : Env) : Nat → Shell → Shell
  | 0, st => st
  | n + 1, st => waitAll env n (Shell.sysWait env st false)

/-- The words of a sub-command: lines 86-92, which stop after `MAX_INPUT/2`
tokens. -/
def tokenize (cmd : Str) : List Str := (strtokAll [' '] cmd).take (MAX_INPUT / 2)

/-- One iteration of the loop over the sub-commands (lines 85-248). -/
def runCommand (env : Env) (st : Shell) (cmd : Str) : Shell × Ctl :=
  let toks := tokenize cmd
  let arg_index := toks.length
  if toks = [] then (st, Ctl.next)
  else
    let red := detectRedirect (toks.map some) Redirect.init
    let r := red.2
    let det := detectPipes red.1 0
    let args := det.1
    let pipe_positions := det.2
    let num_pipes := pipe_positions.length
    if num_pipes > 0 then
      match allocPipes env num_pipes st [] with
      | (st1, none) => (st1, Ctl.exit 1)
      | (st1, some pipefds) =>
        match spawnAll env num_pipes r pipefds pipe_positions args arg_index
            (num_pipes + 1) 0 0 st1 with
        | (st2, false) => (st2, Ctl.exit 1)
        | (st2, true) =>
          let st3 := pipefds.foldl Shell.sysClose st2
          (waitAll env (num_pipes + 1) st3, Ctl.next)
    else if env.forkOk st.forks then
      let child := singleChild env st.forks st.fds r args
      let st1 := { st with forks := st.forks + 1,
                           trace := st.trace ++ [Event.fork (some child)] }
      let st2 := Shell.sysWait env st1 true
      if strchr (cstrAfterStrtok [' '] cmd) '&' = true ∧ WEXITSTATUS st2.status ≠ 0 then
        (st2, Ctl.brk)
      else (st2, Ctl.next)
    else
      ({ st with forks := st.forks + 1,
                 trace := st.trace ++ [Event.fork none, Event.perror "fork failed"] },
       Ctl.next)

/-- The loop over the sub-commands (lines 84-249); `some code` when the shell
has called `exit(code)`. -/
def runCommands (env : Env) : List Str → Shell → Shell × Option Nat
  | [], st => (st, none)
  | cmd :: rest, st =>
    match runCommand env st cmd with
    | (st1, Ctl.next) => runCommands env rest st1
    | (st1, Ctl.brk) => (st1, none)
    | (st1, Ctl.exit code) => (st1, some code)

/-- The sub-commands of a line: lines 76-81, which stop after `MAX_INPUT/2`
tokens. -/
def splitCommands (input : Str) : List Str :=
  (strtokAll [';', '&'] input).take (MAX_INPUT / 2)

/-- Lines 74-249: split the line and run its sub-commands. -/
def processLine (env : Env) (st : Shell) (input : Str) : Shell × Option Nat :=
  runCommands env (splitCommands input) st

/-- Lines 63-72: store a line in the history buffer. -/
def storeHistory (h : List Str) (input : Str) : List Str :=
  if h.length < HISTORY_SIZE then h ++ [input] else h.drop 1 ++ [input]

/-- Lines 47-249 for the buffer `buf` that `fgets` has filled. -/
def mainStep (env : Env) (st : Shell) (buf : Str) : Shell × Option Nat :=
  let input := buf.takeWhile (fun c => decide (c ≠ Char.ofNat 10 ∧ c ≠ Char.ofNat 0))
  if input = [] then (st, none)
  else if input = "history".toList then
    (Shell.emit st
      ((List.range st.history.length).map
        (fun i => Event.printHistory (i + 1) (st.history.getD i []))), none)
  else
    processLine env { st with history := storeHistory st.history input } input

/-- The loop of `main` over the buffers that `fgets` returns until end of file;
the result is the exit code of the shell. -/
def mainLoop (env : Env) : List Str → Shell → Shell × Nat
  | [], st => (Shell.emit st [Event.print "sh> "], 0)
  | buf :: rest, st =>
    match mainStep env (Shell.emit st [Event.print "sh> "]) buf with
    | (st1, none) => mainLoop env rest st1
    | (st1, some code) => (st1, code)

/-! ## Vocabulary of the statements -/

/-- The three redirection operators. -/
def isRedirOp (t : Str) : Bool := decide (t = ['<'] ∨ t = ['>'] ∨ t = ['>', '>'])

/-- The words that `execvp` reads as arguments: neither an operator nor a pipe
token. -/
def isWord (t : Str) : Bool := !isRedirOp t && decide (t ≠ ['|'])

/-- Effect of the redirection loop on one entry of `args`. -/
def maskRedir (a : Option Str) : Option Str :=
  a.bind (fun t => if isRedirOp t = true then none else some t)

/-- Effect of the pipe loop on one entry of `args`. -/
def maskPipe (a : Option Str) : Option Str :=
  if a = some ['|'] then none else a

/-- The redirection variables after the loop of lines 101-117 for the words
`toks`. -/
def redirOf (toks : List Str) : Redirect :=
  (detectRedirect (toks.map some) Redirect.init).2

/-- The array `args` after the two detection loops for the words `toks`. -/
def argsOf (toks : List Str) : List (Option Str) :=
  (detectPipes (detectRedirect (toks.map some) Redirect.init).1 0).1

/-- The array `pipe_positions` for the words `toks`. -/
def pipePosOf (toks : List Str) : List Nat :=
  (detectPipes (detectRedirect (toks.map some) Redirect.init).1 0).2

/-- The children forked in a trace, in order. -/
def forked (tr : List Event) : List Proc :=
  tr.filterMap (fun e => match e with
    | Event.fork (some c) => some c
    | _ => none)

/-- The `execvp` calls of a child: program name and argument vector. -/
def execCalls (p : Proc) : List (Option Str × List Str) :=
  p.sys.filterMap (fun s => match s with
    | Sys.execvp file argv _ => some (file, argv)
    | _ => none)

/-- The `open` calls of a child: path and mode. -/
def openCalls (p : Proc) : List (Option Str × OpenMode) :=
  p.sys.filterMap (fun s => match s with
    | Sys.openFile path mode _ => some (path, mode)
    | _ => none)

/-- Has one of the `open` calls of the child failed. -/
def openFailed (p : Proc) : Bool :=
  p.sys.any (fun s => match s with
    | Sys.openFile _ _ none => true
    | _ => false)

/-- The children that the spawn loop forks when every `fork` succeeds: the same
recursion as `spawnAll`, with `idx` the number of `fork` calls made so far. -/
def spawnedChildren (env : Env) (num_pipes : Nat) (r : Redirect) (pipefds : List Nat)
    (pipe_positions : List Nat) (args : List (Option Str)) (arg_index : Nat) (fds : FdTable) :
    Nat → Nat → Nat → Nat → List Proc
  | 0, _, _, _ => []
  | n + 1, i, cmd_start, idx =>
    pipelineChild env idx fds i num_pipes r pipefds args cmd_start ::
      spawnedChildren env num_pipes r pipefds pipe_positions args arg_index fds n (i + 1)
        (if i < num_pipes then pipe_positions.getD i 0 + 1 else arg_index) (idx + 1)

/-- The descriptors of a list of pipes in the order of the array `pipefds`. -/
def flatFds (pairs : List (Nat × Nat)) : List Nat :=
  pairs.flatMap (fun p => [p.1, p.2])

/-- The `wait` events of `n` consecutive calls starting with call number `w`. -/
def waitEvents (env : Env) (w n : Nat) : List Event :=
  (List.range n).map (fun j => Event.wait (env.waitRes (w + j)))

/-- The descriptor table after a successful redirection block. -/
def redirectedFds (t : FdTable) (f : Str) (mode : OpenMode) (target : Nat) : FdTable :=
  fdSet (fdSet (fdSet t (lowestFree t) (some (Obj.file f mode))) target (some (Obj.file f mode)))
    (lowestFree t) none

/-! ## Sample states and environments -/

/-- Shell state at the start of `main`: descriptors 0, 1 and 2 inherited. -/
def Shell.start (status : Nat) : Shell :=
  { fds := [some (Obj.inherited 0), some (Obj.inherited 1), some (Obj.inherited 2)],
    status := status, history := [], pipes := 0, forks := 0, waits := 0, trace := [] }

/-- An environment in which every call succeeds and every child exits with
the status `code`. -/
def Env.allOk (code : Nat) : Env :=
  { pipeOk := fun _ => true, forkOk := fun _ => true,
    waitRes := fun _ => some (code * 256),
    openOk := fun _ _ _ => true, execOk := fun _ _ _ => true }

/-- An environment in which every `pipe` call fails and every other call
succeeds. -/
def Env.pipeFails : Env :=
  { pipeOk := fun _ => false, forkOk := fun _ => true,
    waitRes := fun _ => some 0,
    openOk := fun _ _ _ => true, execOk := fun _ _ _ => true }

theorem fdGet_fdSet (t : FdTable) (fd fd2 : Nat) (o : Option Obj) :
    fdGet (fdSet t fd o) fd2 = if fd2 = fd then o else fdGet t fd2 := by
  unfold fdGet fdSet
  by_cases h : fd < t.length
  · simp only [h, if_true]
    by_cases e : fd2 = fd
    · subst e; simp [List.getElem?_set, h]
    · simp [List.getElem?_set, e, Ne.symm e]
  · simp only [h, if_false]
    have hle : t.length ≤ fd := Nat.le_of_not_lt h
    by_cases e : fd2 = fd
    · subst e
      simp [List.getElem?_append_right, hle]
    · simp only [e, if_false]
      by_cases h2 : fd2 < t.length
      · simp [List.getElem?_append_left, h2, List.append_assoc]
      · have hle2 : t.length ≤ fd2 := Nat.le_of_not_lt h2
        rw [List.get?_eq_getElem?, List.get?_eq_getElem?, List.append_assoc,
          List.getElem?_append_right hle2, List.getElem?_eq_none hle2]
        by_cases h3 : fd2 - t.length < fd - t.length
        · rw [List.getElem?_append_left (by simpa using h3)]
          simp [List.getElem?_replicate, h3]
        · rw [List.getElem?_append_right (by simpa using Nat.le_of_not_lt h3)]
          have hne : fd2 - t.length -
              (List.replicate (fd - t.length) (none : Option Obj)).length ≠ 0 := by
            simp; omega
          cases hn : fd2 - t.length -
              (List.replicate (fd - t.length) (none : Option Obj)).length with
          | zero => exact absurd hn hne
          | succ m => simp

theorem strtokAux_no_delim (d : List Char) (s cur : List Char)
    (hcur : ∀ c ∈ cur, c ∉ d) : ∀ t ∈ strtokAux d s cur, ∀ c ∈ t, c ∉ d := by
  induction s generalizing cur with
  | nil =>
    intro t ht
    by_cases h : cur = []
    · simp [strtokAux, h] at ht
    · simp only [strtokAux, h, if_false, List.mem_singleton] at ht
      subst ht
      intro c hc
      exact hcur c (by simpa using hc)
  | cons c cs ih =>
    intro t ht
    by_cases hc : c ∈ d
    · by_cases h : cur = []
      · simp only [strtokAux, hc, h, if_true] at ht
        exact ih [] (by simp) t ht
      · simp only [strtokAux, hc, h, if_true, if_false, List.mem_cons] at ht
        rcases ht with ht | ht
        · subst ht
          intro c2 hc2
          exact hcur c2 (by simpa using hc2)
        · exact ih [] (by simp) t ht
    · simp only [strtokAux, hc, if_false] at ht
      refine ih (c :: cur) ?_ t ht
      intro c2 hc2
      rcases List.mem_cons.mp hc2 with h2 | h2
      · subst h2; exact hc
      · exact hcur c2 h2

theorem amp_not_mem_of_mem_splitCommands (input cmd : Str) (h : cmd ∈ splitCommands input) :
    '&' ∉ cmd := by
  have hmem : cmd ∈ strtokAux [';', '&'] input [] := List.mem_of_mem_take h
  intro hamp
  exact strtokAux_no_delim [';', '&'] input [] (by simp) cmd hmem '&' hamp (by simp)

theorem strchr_cstrAfterStrtok (d : List Char) (cmd : Str) (c : Char) (h : c ∉ cmd) :
    strchr (cstrAfterStrtok d cmd) c = false := by
  unfold strchr cstrAfterStrtok
  simp only [decide_eq_false_iff_not, List.mem_append, not_or]
  constructor
  · intro h1
    exact h ((List.takeWhile_sublist _).subset h1)
  · intro h1
    exact h ((List.dropWhile_sublist _).subset ((List.takeWhile_sublist _).subset h1))

/-! ## The two detection loops -/

theorem detectRedirect_fst (as : List (Option Str)) (r : Redirect) :
    (detectRedirect as r).1 = as.map maskRedir := by
  induction as generalizing r with
  | nil => rfl
  | cons a rest ih =>
    cases a with
    | none => simp [detectRedirect, ih, maskRedir]
    | some t =>
      by_cases h1 : t = ['<']
      · simp [detectRedirect, ih, maskRedir, isRedirOp, h1]
      · by_cases h2 : t = ['>']
        · simp [detectRedirect, ih, maskRedir, isRedirOp, h2]
        · by_cases h3 : t = ['>', '>']
          · simp [detectRedirect, ih, maskRedir, isRedirOp, h3]
          · simp [detectRedirect, ih, maskRedir, isRedirOp, h1, h2, h3]

theorem detectRedirect_noop (toks : List Str) (r : Redirect)
    (h : ∀ t ∈ toks, isRedirOp t = false) :
    detectRedirect (toks.map some) r = (toks.map some, r) := by
  induction toks generalizing r with
  | nil => rfl
  | cons t rest ih =>
    have ht : isRedirOp t = false := h t (by simp)
    have hrest : ∀ t ∈ rest, isRedirOp t = false := fun x hx => h x (by simp [hx])
    simp only [isRedirOp, decide_eq_false_iff_not, not_or] at ht
    simp [detectRedirect, ht.1, ht.2.1, ht.2.2, ih r hrest]

theorem detectPipes_fst (as : List (Option Str)) (j : Nat) :
    (detectPipes as j).1 = as.map maskPipe := by
  induction as generalizing j with
  | nil => rfl
  | cons a rest ih =>
    by_cases h : a = some ['|']
    · simp [detectPipes, ih, maskPipe, h]
    · simp [detectPipes, ih, maskPipe, h]

theorem detectPipes_snd_length (as : List (Option Str)) (j : Nat) :
    (detectPipes as j).2.length = as.count (some ['|']) := by
  induction as generalizing j with
  | nil => rfl
  | cons a rest ih =>
    by_cases h : a = some ['|']
    · simp [detectPipes, ih, h]
    · have h2 : ¬ (some ['|'] = a) := fun e => h e.symm
      simp [detectPipes, ih, h, List.count_cons, h2]

theorem detectPipes_getD (l1 l2 : List (Option Str)) (j : Nat) :
    (detectPipes (l1 ++ some ['|'] :: l2) j).2.getD (l1.count (some ['|'])) 0 = j + l1.length := by
  induction l1 generalizing j with
  | nil => simp [detectPipes]
  | cons a rest ih =>
    have hi := ih (j + 1)
    by_cases h : a = some ['|']
    · subst h
      simp [detectPipes] at hi ⊢
      omega
    · have h2 : ¬ (some ['|'] = a) := fun e => h e.symm
      simp [detectPipes, h, List.count_cons, h2] at hi ⊢
      omega

theorem count_pipe_maskRedir (toks : List Str) :
    ((toks.map some).map maskRedir).count (some ['|']) = toks.count ['|'] := by
  induction toks with
  | nil => rfl
  | cons t rest ih =>
    by_cases h : t = ['|']
    · subst h
      simp [maskRedir, isRedirOp, ih] at ih ⊢
      exact ih
    · have h2 : ¬ (['|'] = t) := fun e => h e.symm
      by_cases hr : isRedirOp t = true
      · simp [maskRedir, hr, List.count_cons, h, h2] at ih ⊢
        exact ih
      · simp [maskRedir, hr, List.count_cons, h, h2] at ih ⊢
        exact ih

/-! ## The loops of the shell process -/

theorem allocPipes_ok (env : Env) (hpipe : ∀ n, env.pipeOk n = true) (n : Nat) (st : Shell)
    (acc : List Nat) :
    ∃ st1 pairs, allocPipes env n st acc = (st1, some (acc ++ flatFds pairs)) ∧
      pairs.length = n ∧
      st1.trace = st.trace ++ pairs.map (fun p => Event.pipe (some p)) ∧
      st1.forks = st.forks ∧ st1.waits = st.waits ∧ st1.pipes = st.pipes + n := by
  induction n generalizing st acc with
  | zero => exact ⟨st, [], by simp [allocPipes, flatFds]⟩
  | succ n ih =>
    simp only [allocPipes, hpipe, if_true]
    obtain ⟨st1, pairs, h1, h2, h3, h4, h5, h6⟩ := ih
      { st with fds := fdSet (fdSet st.fds (lowestFree st.fds) (some (Obj.pipeRead st.pipes)))
                  (lowestFree (fdSet st.fds (lowestFree st.fds) (some (Obj.pipeRead st.pipes))))
                  (some (Obj.pipeWrite st.pipes)),
                pipes := st.pipes + 1,
                trace := st.trace ++ [Event.pipe (some (lowestFree st.fds,
                  lowestFree (fdSet st.fds (lowestFree st.fds) (some (Obj.pipeRead st.pipes)))))] }
      (acc ++ [lowestFree st.fds,
        lowestFree (fdSet st.fds (lowestFree st.fds) (some (Obj.pipeRead st.pipes)))])
    refine ⟨st1, (lowestFree st.fds,
        lowestFree (fdSet st.fds (lowestFree st.fds) (some (Obj.pipeRead st.pipes)))) :: pairs,
      ?_, ?_, ?_, ?_, ?_, ?_⟩
    · rw [h1]; simp [flatFds]
    · simp [h2]
    · rw [h3]; simp
    · rw [h4]
    · rw [h5]
    · rw [h6]; simp; omega

theorem spawnAll_ok (env : Env) (hfork : ∀ n, env.forkOk n = true) (num_pipes : Nat)
    (r : Redirect) (pipefds pp : List Nat) (args : List (Option Str)) (arg_index : Nat)
    (n i cs : Nat) (st : Shell) :
    ∃ st2, spawnAll env num_pipes r pipefds pp args arg_index n i cs st = (st2, true) ∧
      st2.trace = st.trace ++
        (spawnedChildren env num_pipes r pipefds pp args arg_index st.fds n i cs st.forks).map
          (fun c => Event.fork (some c)) ∧
      st2.fds = st.fds ∧ st2.waits = st.waits ∧ st2.forks = st.forks + n := by
  induction n generalizing i cs st with
  | zero => exact ⟨st, by simp [spawnAll, spawnedChildren]⟩
  | succ n ih =>
    simp only [spawnAll, hfork, if_true]
    obtain ⟨st2, h1, h2, h3, h4, h5⟩ := ih (i + 1)
      (if i < num_pipes then pp.getD i 0 + 1 else arg_index)
      { st with forks := st.forks + 1,
                trace := st.trace ++ [Event.fork (some
                  (pipelineChild env st.forks st.fds i num_pipes r pipefds args cs))] }
    refine ⟨st2, h1, ?_, h3, h4, ?_⟩
    · rw [h2]; simp [spawnedChildren]
    · rw [h5]; simp; omega

theorem foldl_sysClose_trace (l : List Nat) (st : Shell) :
    (l.foldl Shell.sysClose st).trace = st.trace ++ l.map Event.close ∧
      (l.foldl Shell.sysClose st).waits = st.waits ∧
      (l.foldl Shell.sysClose st).forks = st.forks := by
  induction l generalizing st with
  | nil => simp
  | cons a rest ih =>
    obtain ⟨h1, h2, h3⟩ := ih (Shell.sysClose st a)
    simp only [List.foldl_cons]
    refine ⟨?_, ?_, ?_⟩
    · rw [h1]; simp [Shell.sysClose]
    · rw [h2]; simp [Shell.sysClose]
    · rw [h3]; simp [Shell.sysClose]

theorem waitAll_trace (env : Env) (n : Nat) (st : Shell) :
    (waitAll env n st).trace = st.trace ++ waitEvents env st.waits n := by
  induction n generalizing st with
  | zero => simp [waitAll, waitEvents]
  | succ n ih =>
    simp only [waitAll]
    rw [ih]
    simp only [Shell.sysWait, waitEvents, List.range_succ_eq_map, List.map_cons, List.map_map,
      List.append_assoc, List.singleton_append, Nat.add_zero]
    congr 2
    apply List.map_congr_left
    intro j _
    simp only [Function.comp]
    congr 2
    omega

/-! ## One sub-command -/

theorem pipePosOf_length (toks : List Str) : (pipePosOf toks).length = toks.count ['|'] := by
  unfold pipePosOf
  rw [detectPipes_snd_length, detectRedirect_fst, count_pipe_maskRedir]

theorem argsOf_eq (toks : List Str) :
    argsOf toks = toks.map (fun t => maskPipe (maskRedir (some t))) := by
  unfold argsOf
  rw [detectPipes_fst, detectRedirect_fst]
  simp [List.map_map, Function.comp]

theorem runCommand_pipeline (env : Env) (st : Shell) (cmd : Str)
    (hpipe : ∀ n, env.pipeOk n = true) (hfork : ∀ n, env.forkOk n = true)
    (hk : 0 < (tokenize cmd).count ['|']) :
    ∃ st1 pairs, allocPipes env ((tokenize cmd).count ['|']) st [] = (st1, some (flatFds pairs)) ∧
      pairs.length = (tokenize cmd).count ['|'] ∧
      (runCommand env st cmd).2 = Ctl.next ∧
      (runCommand env st cmd).1.trace = st.trace ++ pairs.map (fun p => Event.pipe (some p)) ++
        (spawnedChildren env ((tokenize cmd).count ['|']) (redirOf (tokenize cmd)) (flatFds pairs)
          (pipePosOf (tokenize cmd)) (argsOf (tokenize cmd)) (tokenize cmd).length st1.fds
          ((tokenize cmd).count ['|'] + 1) 0 0 st.forks).map (fun c => Event.fork (some c)) ++
        (flatFds pairs).map Event.close ++
        waitEvents env st.waits ((tokenize cmd).count ['|'] + 1) := by
  have hne : tokenize cmd ≠ [] := by
    intro h
    rw [h] at hk
    simp at hk
  obtain ⟨st1, pairs, ha1, ha2, ha3, ha4, ha5, _⟩ :=
    allocPipes_ok env hpipe ((tokenize cmd).count ['|']) st []
  simp only [List.nil_append] at ha1
  obtain ⟨st2, hs1, hs2, hs3, hs4, hs5⟩ := spawnAll_ok env hfork ((tokenize cmd).count ['|'])
    (redirOf (tokenize cmd)) (flatFds pairs) (pipePosOf (tokenize cmd)) (argsOf (tokenize cmd))
    (tokenize cmd).length ((tokenize cmd).count ['|'] + 1) 0 0 st1
  obtain ⟨hc1, hc2, hc3⟩ := foldl_sysClose_trace (flatFds pairs) st2
  have hlen := pipePosOf_length (tokenize cmd)
  have hpos : 0 < (pipePosOf (tokenize cmd)).length := by rw [hlen]; exact hk
  have hrun : runCommand env st cmd =
      (waitAll env ((tokenize cmd).count ['|'] + 1) ((flatFds pairs).foldl Shell.sysClose st2),
        Ctl.next) := by
    unfold runCommand
    simp only [hne, if_false]
    unfold pipePosOf at hlen hpos
    unfold redirOf pipePosOf argsOf at hs1
    simp only [gt_iff_lt, hlen, hk, if_true, ha1, hs1]
  refine ⟨st1, pairs, ha1, ha2, ?_, ?_⟩
  · rw [hrun]
  · rw [hrun]
    simp only [waitAll_trace, hc1, hc2, hs2, hs4, ha3, ha4, ha5, List.append_assoc]

theorem runCommand_single_trace (env : Env) (st : Shell) (cmd : Str)
    (hne : tokenize cmd ≠ []) (hk : (tokenize cmd).count ['|'] = 0)
    (hfork : env.forkOk st.forks = true) :
    (runCommand env st cmd).1.trace = st.trace ++
      [Event.fork (some (singleChild env st.forks st.fds (redirOf (tokenize cmd))
          (argsOf (tokenize cmd)))),
        Event.wait (env.waitRes st.waits)] := by
  have hlen := pipePosOf_length (tokenize cmd)
  rw [hk] at hlen
  unfold runCommand
  simp only [hne, if_false]
  unfold pipePosOf at hlen
  unfold redirOf argsOf
  simp only [hlen, gt_iff_lt, Nat.lt_irrefl, if_false, hfork, if_true]
  split <;> simp [Shell.sysWait]

theorem runCommand_single_next (env : Env) (st : Shell) (cmd : Str)
    (hk : (tokenize cmd).count ['|'] = 0) (hamp : '&' ∉ cmd) :
    (runCommand env st cmd).2 = Ctl.next := by
  have hlen := pipePosOf_length (tokenize cmd)
  rw [hk] at hlen
  have hs := strchr_cstrAfterStrtok [' '] cmd '&' hamp
  unfold runCommand
  by_cases hne : tokenize cmd = []
  · simp [hne]
  · simp only [hne, if_false]
    unfold pipePosOf at hlen
    simp only [hlen, gt_iff_lt, Nat.lt_irrefl, if_false, hs]
    by_cases hf : env.forkOk st.forks = true
    · simp [hf]
    · simp [hf]

/-! ## The arrays `commands` and `args` are large enough -/

theorem strtokAux_length (d : List Char) (s cur : List Char) :
    2 * (strtokAux d s cur).length ≤ s.length + (if cur = [] then 1 else 2) := by
  induction s generalizing cur with
  | nil =>
    by_cases h : cur = []
    · simp [strtokAux, h]
    · simp [strtokAux, h]
  | cons c cs ih =>
    by_cases hc : c ∈ d
    · by_cases h : cur = []
      · have := ih []
        simp only [strtokAux, hc, h, if_true, List.length_cons] at this ⊢
        omega
      · have := ih []
        simp only [strtokAux, hc, h, if_true, if_false, List.length_cons] at this ⊢
        omega
    · have := ih (c :: cur)
      simp only [strtokAux, hc, if_false, List.length_cons, List.cons_ne_nil] at this ⊢
      split <;> omega

/-- A buffer filled by `fgets(input, MAX_INPUT, stdin)` holds at most 1023
characters, so `strtok` finds at most `MAX_INPUT/2` tokens in it: the loops of
lines 78 and 89 end on a `NULL` token. -/
theorem take_strtokAll_of_length_le (d : List Char) (s : Str) (h : s.length ≤ MAX_INPUT - 1) :
    (strtokAll d s).take (MAX_INPUT / 2) = strtokAll d s := by
  apply List.take_of_length_le
  have := strtokAux_length d s []
  simp only [MAX_INPUT, if_true] at h this ⊢
  unfold strtokAll
  omega

/-- The test of line 243 never succeeds for a sub-command of a line: no
iteration of the loop over the sub-commands ends with `break`. -/
theorem runCommand_never_breaks (env : Env) (st : Shell) (input cmd : Str)
    (hcmd : cmd ∈ splitCommands input) : (runCommand env st cmd).2 ≠ Ctl.brk := by
  have hamp := amp_not_mem_of_mem_splitCommands input cmd hcmd
  have hs := strchr_cstrAfterStrtok [' '] cmd '&' hamp
  unfold runCommand
  simp only [hs, Bool.false_eq_true, false_and, if_false]
  split
  · simp
  · split
    · split
      · simp
      · split <;> simp
    · split <;> simp

/-! ## What a child executes -/

theorem maskBoth_word (t : Str) (h : isWord t = true) : maskPipe (maskRedir (some t)) = some t := by
  simp only [isWord, Bool.and_eq_true, Bool.not_eq_true', decide_eq_true_eq] at h
  simp [maskPipe, maskRedir, h.1, h.2]

theorem maskBoth_not_word (t : Str) (h : isWord t = false) :
    maskPipe (maskRedir (some t)) = none := by
  by_cases hr : isRedirOp t = true
  · simp [maskPipe, maskRedir, hr]
  · have hp : t = ['|'] := by
      simp only [isWord, Bool.and_eq_false_iff, Bool.not_eq_false', decide_eq_false_iff_not,
        ne_eq, not_not] at h
      rcases h with h | h
      · exact absurd h hr
      · exact h
    simp [maskPipe, maskRedir, hr, hp]

theorem argvAt_argsOf (toks : List Str) (n : Nat) :
    argvAt (argsOf toks) n = (toks.drop n).takeWhile isWord := by
  rw [argsOf_eq]
  unfold argvAt
  rw [← List.map_drop]
  generalize toks.drop n = l
  induction l with
  | nil => rfl
  | cons t rest ih =>
    by_cases h : isWord t = true
    · simp only [List.map_cons, maskBoth_word t h, List.takeWhile_cons, Option.isSome_some,
        if_true, h, List.filterMap_cons, id]
      rw [ih]
    · have h2 : isWord t = false := by simpa using h
      simp [List.map_cons, maskBoth_not_word t h2, List.takeWhile_cons, h2]

theorem argAt_argsOf (toks : List Str) (n : Nat) :
    argAt (argsOf toks) n = ((toks.drop n).takeWhile isWord).head? := by
  rw [argsOf_eq]
  unfold argAt
  rw [List.get?_eq_getElem?, List.getElem?_map, ← List.head?_drop]
  cases toks.drop n with
  | nil => rfl
  | cons t rest =>
    by_cases h : isWord t = true
    · simp [maskBoth_word t h, List.takeWhile_cons, h]
    · have h2 : isWord t = false := by simpa using h
      simp [maskBoth_not_word t h2, List.takeWhile_cons, h2]

theorem foldl_sysClose_sys (l : List Nat) (p : Proc) :
    (l.foldl Proc.sysClose p).sys = p.sys ++ l.map Sys.close := by
  induction l generalizing p with
  | nil => simp
  | cons a rest ih => simp [List.foldl_cons, ih, Proc.sysClose]

theorem execCalls_foldl_sysClose (l : List Nat) (p : Proc) :
    execCalls (l.foldl Proc.sysClose p) = execCalls p := by
  unfold execCalls
  rw [foldl_sysClose_sys, List.filterMap_append]
  simp [List.filterMap_map, Function.comp]

theorem openCalls_foldl_sysClose (l : List Nat) (p : Proc) :
    openCalls (l.foldl Proc.sysClose p) = openCalls p := by
  unfold openCalls
  rw [foldl_sysClose_sys, List.filterMap_append]
  simp [List.filterMap_map, Function.comp]

theorem execCalls_sysDup2 (p : Proc) (a b : Nat) :
    execCalls (Proc.sysDup2 p a b) = execCalls p := by
  simp [execCalls, Proc.sysDup2, List.filterMap_append]

theorem openCalls_sysDup2 (p : Proc) (a b : Nat) :
    openCalls (Proc.sysDup2 p a b) = openCalls p := by
  simp [openCalls, Proc.sysDup2, List.filterMap_append]

theorem execCalls_sysClose (p : Proc) (a : Nat) :
    execCalls (Proc.sysClose p a) = execCalls p := by
  simp [execCalls, Proc.sysClose, List.filterMap_append]

theorem openCalls_sysClose (p : Proc) (a : Nat) :
    openCalls (Proc.sysClose p a) = openCalls p := by
  simp [openCalls, Proc.sysClose, List.filterMap_append]

theorem execCalls_sysExecvp (env : Env) (idx : Nat) (p : Proc) (file : Option Str)
    (argv : List Str) :
    execCalls (Proc.sysExecvp env idx p file argv) = execCalls p ++ [(file, argv)] := by
  cases file with
  | none => simp [execCalls, Proc.sysExecvp, Proc.die, List.filterMap_append]
  | some f =>
    by_cases h : env.execOk idx f argv = true
    · simp [execCalls, Proc.sysExecvp, h, List.filterMap_append]
    · simp [execCalls, Proc.sysExecvp, h, Proc.die, List.filterMap_append]

theorem openCalls_sysExecvp (env : Env) (idx : Nat) (p : Proc) (file : Option Str)
    (argv : List Str) :
    openCalls (Proc.sysExecvp env idx p file argv) = openCalls p := by
  cases file with
  | none => simp [openCalls, Proc.sysExecvp, Proc.die, List.filterMap_append]
  | some f =>
    by_cases h : env.execOk idx f argv = true
    · simp [openCalls, Proc.sysExecvp, h, List.filterMap_append]
    · simp [openCalls, Proc.sysExecvp, h, Proc.die, List.filterMap_append]

theorem execCalls_pipelineChild_init (env : Env) (idx : Nat) (fds : FdTable) (i k : Nat)
    (pipefds : List Nat) (args : List (Option Str)) (cs : Nat) :
    execCalls (pipelineChild env idx fds i k Redirect.init pipefds args cs) =
      [(argAt args cs, argvAt args cs)] := by
  unfold pipelineChild
  simp only [Redirect.init, Bool.false_eq_true, and_false, or_self, if_false]
  rw [execCalls_sysExecvp, execCalls_foldl_sysClose]
  split <;> split <;> (try simp only [execCalls_sysDup2]) <;> simp [execCalls]

/-! ## Segments of a pipeline -/

theorem pipePosOf_getD (l1 l2 : List Str) :
    (pipePosOf (l1 ++ ['|'] :: l2)).getD (l1.count ['|']) 0 = l1.length := by
  unfold pipePosOf
  rw [detectRedirect_fst]
  have hm : maskRedir (some ['|']) = some ['|'] := by decide
  have h := detectPipes_getD ((l1.map some).map maskRedir) ((l2.map some).map maskRedir) 0
  rw [count_pipe_maskRedir] at h
  simpa [hm] using h

theorem takeWhile_isWord_segment (a b : List Str) (hnr : ∀ t ∈ a, isRedirOp t = false)
    (ha : ['|'] ∉ a) : (a ++ ['|'] :: b).takeWhile isWord = a := by
  induction a with
  | nil => simp [List.takeWhile_cons, isWord]
  | cons t rest ih =>
    have ht : isWord t = true := by
      have h1 := hnr t (by simp)
      have h2 : t ≠ ['|'] := fun e => ha (by simp [e])
      simp [isWord, h1, h2]
    have hrest := ih (fun x hx => hnr x (by simp [hx])) (fun hx => ha (by simp [hx]))
    simp [List.takeWhile_cons, ht, hrest]

theorem takeWhile_isWord_all (a : List Str) (hnr : ∀ t ∈ a, isRedirOp t = false)
    (ha : ['|'] ∉ a) : a.takeWhile isWord = a := by
  rw [List.takeWhile_eq_self_iff]
  intro t ht
  have h1 := hnr t ht
  have h2 : t ≠ ['|'] := fun e => ha (e ▸ ht)
  simp [isWord, h1, h2]

theorem splitOn_pipe_first (a b : List Str) (ha : ['|'] ∉ a) :
    (a ++ ['|'] :: b).splitOn ['|'] = a :: b.splitOn ['|'] := by
  unfold List.splitOn
  apply List.splitOnP_first
  · intro x hx hp
    have : x = ['|'] := by simpa using hp
    exact ha (this ▸ hx)
  · simp

theorem splitOn_pipe_single (a : List Str) (ha : ['|'] ∉ a) : a.splitOn ['|'] = [a] := by
  unfold List.splitOn
  apply List.splitOnP_eq_single
  intro x hx hp
  have : x = ['|'] := by simpa using hp
  exact ha (this ▸ hx)

theorem spawned_exec_segments (env : Env) (pipefds : List Nat) (fds : FdTable)
    (toks : List Str) (hnr : ∀ t ∈ toks, isRedirOp t = false) (n : Nat) :
    ∀ (pre rest : List Str) (idx : Nat), toks = pre ++ rest → rest.count ['|'] + 1 = n →
      (spawnedChildren env (toks.count ['|']) Redirect.init pipefds (pipePosOf toks)
        (argsOf toks) toks.length fds n (pre.count ['|']) pre.length idx).map execCalls =
      (rest.splitOn ['|']).map (fun seg => [(seg.head?, seg)]) := by
  induction n with
  | zero => intro pre rest idx _ h; omega
  | succ m ih =>
    intro pre rest idx htoks hcount
    have hnrRest : ∀ t ∈ rest, isRedirOp t = false := fun t ht => hnr t (by simp [htoks, ht])
    simp only [spawnedChildren, List.map_cons, execCalls_pipelineChild_init, argvAt_argsOf,
      argAt_argsOf]
    have hdrop : toks.drop pre.length = rest := by simp [htoks]
    rw [hdrop]
    by_cases hp : ['|'] ∈ rest
    · obtain ⟨a, b, hab, ha⟩ := List.eq_append_cons_of_mem hp
      have hcnt : rest.count ['|'] = b.count ['|'] + 1 := by
        rw [hab, List.count_append, List.count_cons_self, List.count_eq_zero_of_not_mem ha]
        omega
      have hlt : pre.count ['|'] < toks.count ['|'] := by
        rw [htoks, List.count_append]; omega
      have htoks2 : toks = (pre ++ a) ++ ['|'] :: b := by rw [htoks, hab]; simp
      have hget : (pipePosOf toks).getD (pre.count ['|']) 0 = pre.length + a.length := by
        have h := pipePosOf_getD (pre ++ a) b
        rw [← htoks2, List.count_append, List.count_eq_zero_of_not_mem ha] at h
        simpa using h
      have hih := ih (pre ++ a ++ [['|']]) b (idx + 1) (by rw [htoks2]; simp) (by omega)
      have hc2 : (pre ++ a ++ [['|']]).count ['|'] = pre.count ['|'] + 1 := by
        simp [List.count_append, List.count_eq_zero_of_not_mem ha]
      have hl2 : (pre ++ a ++ [['|']]).length = pre.length + a.length + 1 := by
        simp only [List.length_append, List.length_singleton]
      rw [hc2, hl2] at hih
      simp only [hlt, if_true, hget]
      rw [hih, hab, splitOn_pipe_first a b ha,
        takeWhile_isWord_segment a b (fun t ht => hnrRest t (by simp [hab, ht])) ha]
      simp
    · have hz : rest.count ['|'] = 0 := List.count_eq_zero_of_not_mem hp
      have hm : m = 0 := by omega
      subst hm
      rw [splitOn_pipe_single rest hp, takeWhile_isWord_all rest hnrRest hp]
      simp [spawnedChildren]

theorem forked_append (a b : List Event) : forked (a ++ b) = forked a ++ forked b := by
  simp [forked, List.filterMap_append]

theorem forked_pipes (pairs : List (Nat × Nat)) :
    forked (pairs.map (fun p => Event.pipe (some p))) = [] := by
  simp [forked, List.filterMap_map, Function.comp]

theorem forked_forks (cs : List Proc) : forked (cs.map (fun c => Event.fork (some c))) = cs := by
  induction cs with
  | nil => rfl
  | cons c rest ih =>
    simp only [forked, List.map_cons, List.filterMap_cons] at ih ⊢
    rw [ih]

theorem forked_closes (l : List Nat) : forked (l.map Event.close) = [] := by
  simp [forked, List.filterMap_map, Function.comp]

theorem forked_waits (env : Env) (w n : Nat) : forked (waitEvents env w n) = [] := by
  simp [forked, waitEvents, List.filterMap_map, Function.comp]

/-! ## The redirection block of a child -/

theorem openFailed_foldl_sysClose (l : List Nat) (p : Proc) :
    openFailed (l.foldl Proc.sysClose p) = openFailed p := by
  unfold openFailed
  rw [foldl_sysClose_sys, List.any_append]
  simp [List.any_map, Function.comp]

theorem openFailed_sysDup2 (p : Proc) (a b : Nat) :
    openFailed (Proc.sysDup2 p a b) = openFailed p := by
  simp [openFailed, Proc.sysDup2, List.any_append]

theorem openFailed_sysExecvp (env : Env) (idx : Nat) (p : Proc) (file : Option Str)
    (argv : List Str) :
    openFailed (Proc.sysExecvp env idx p file argv) = openFailed p := by
  cases file with
  | none => simp [openFailed, Proc.sysExecvp, Proc.die, List.any_append]
  | some f =>
    by_cases h : env.execOk idx f argv = true
    · simp [openFailed, Proc.sysExecvp, h, List.any_append]
    · simp [openFailed, Proc.sysExecvp, h, Proc.die, List.any_append]

theorem redirectFd_cases (env : Env) (idx : Nat) (p : Proc) (path : Option Str)
    (mode : OpenMode) (target : Nat) (msg : String) :
    (∃ d, redirectFd env idx p path mode target msg = Except.error d ∧
      d.sys = p.sys ++ [Sys.openFile path mode none, Sys.perror msg, Sys.exit 1]) ∨
    (∃ p1 f, redirectFd env idx p path mode target msg = Except.ok p1 ∧
      path = some f ∧ env.openOk idx f mode = true ∧
      p1.sys = p.sys ++ [Sys.openFile path mode (some (lowestFree p.fds)),
        Sys.dup2 (lowestFree p.fds) target, Sys.close (lowestFree p.fds)] ∧
      p1.fds = redirectedFds p.fds f mode target) := by
  cases path with
  | none =>
    left
    refine ⟨Proc.die { p with sys := p.sys ++ [Sys.openFile none mode none] } msg, rfl, ?_⟩
    simp [Proc.die]
  | some f =>
    by_cases h : env.openOk idx f mode = true
    · right
      refine ⟨Proc.sysClose (Proc.sysDup2
          { fds := fdSet p.fds (lowestFree p.fds) (some (Obj.file f mode)),
            sys := p.sys ++ [Sys.openFile (some f) mode (some (lowestFree p.fds))] }
          (lowestFree p.fds) target) (lowestFree p.fds), f,
        by simp only [redirectFd, Proc.sysOpen, h, if_true], rfl, h, ?_, ?_⟩
      · simp [Proc.sysClose, Proc.sysDup2]
      · simp [Proc.sysClose, Proc.sysDup2, redirectedFds, fdGet_fdSet]
    · left
      refine ⟨Proc.die { p with sys := p.sys ++ [Sys.openFile (some f) mode none] } msg,
        by simp only [redirectFd, Proc.sysOpen, h]; rfl, ?_⟩
      simp [Proc.die]

/-- One guarded redirection block: `if (c) { ... }`. -/
theorem stage_cases (c : Prop) [Decidable c] (env : Env) (idx : Nat) (p : Proc)
    (path : Option Str) (mode : OpenMode) (target : Nat) (msg : String) :
    (∃ d, (if c then redirectFd env idx p path mode target msg else Except.ok p) =
        Except.error d ∧ c ∧
      d.sys = p.sys ++ [Sys.openFile path mode none, Sys.perror msg, Sys.exit 1] ∧
      execCalls d = execCalls p ∧ openFailed d = true ∧
      openCalls d = openCalls p ++ [(path, mode)]) ∨
    (∃ p1, (if c then redirectFd env idx p path mode target msg else Except.ok p) =
        Except.ok p1 ∧
      p1.sys = p.sys ++ (if c then [Sys.openFile path mode (some (lowestFree p.fds)),
        Sys.dup2 (lowestFree p.fds) target, Sys.close (lowestFree p.fds)] else []) ∧
      execCalls p1 = execCalls p ∧ openFailed p1 = openFailed p ∧
      openCalls p1 = openCalls p ++ (if c then [(path, mode)] else []) ∧
      (c → ∃ f, path = some f ∧ env.openOk idx f mode = true ∧
        p1.fds = redirectedFds p.fds f mode target) ∧
      (¬ c → p1 = p)) := by
  by_cases hc : c
  · rw [if_pos hc]
    rcases redirectFd_cases env idx p path mode target msg with
      ⟨d, h1, h2⟩ | ⟨p1, f, h1, h2, h3, h4, h5⟩
    · refine Or.inl ⟨d, h1, hc, h2, ?_, ?_, ?_⟩
      · simp [execCalls, h2, List.filterMap_append]
      · simp [openFailed, h2, List.any_append]
      · simp [openCalls, h2, List.filterMap_append]
    · refine Or.inr ⟨p1, h1, by rw [if_pos hc]; exact h4, ?_, ?_, ?_,
        fun _ => ⟨f, h2, h3, h5⟩, fun h => absurd hc h⟩
      · simp [execCalls, h4, List.filterMap_append]
      · simp [openFailed, h4, List.any_append]
      · simp [openCalls, h4, List.filterMap_append, hc]
  · rw [if_neg hc]
    exact Or.inr ⟨p, rfl, by rw [if_neg hc]; simp, rfl, rfl, by rw [if_neg hc]; simp,
      fun h => absurd h hc, fun _ => rfl⟩

theorem execCalls_singleChild (env : Env) (idx : Nat) (fds : FdTable) (r : Redirect)
    (args : List (Option Str)) :
    execCalls (singleChild env idx fds r args) =
      if openFailed (singleChild env idx fds r args) = true then []
      else [(argAt args 0, argvAt args 0)] := by
  unfold singleChild
  rcases stage_cases (r.input_redirect = true) env idx ⟨fds, []⟩ r.input_file OpenMode.rdonly 0
      "open input file failed" with ⟨d, h1, _, _, h2, h3, _⟩ | ⟨p1, h1, _, h2, h3, _, _, _⟩
  · simp only [h1]
    rw [h2, h3]
    simp [execCalls]
  · simp only [h1]
    rcases stage_cases (r.output_redirect = true) env idx p1 r.output_file OpenMode.truncate 1
        "open output file failed" with ⟨d, k1, _, _, k2, k3, _⟩ | ⟨p2, k1, _, k2, k3, _, _, _⟩
    · simp only [k1]
      rw [k2, k3, h2]
      simp [execCalls]
    · simp only [k1]
      rcases stage_cases (r.append_redirect = true) env idx p2 r.output_file OpenMode.append 1
          "open append file failed" with ⟨d, l1, _, _, l2, l3, _⟩ | ⟨p3, l1, _, l2, l3, _, _, _⟩
      · simp only [l1]
        rw [l2, l3, k2, h2]
        simp [execCalls]
      · simp only [l1]
        rw [execCalls_sysExecvp, openFailed_sysExecvp, l2, l3, k2, k3, h2, h3]
        simp [execCalls, openFailed]

/-! ## Redirection targets -/

theorem detectRedirect_last_input (pre : List Str) (r : Redirect) :
    (detectRedirect ((pre ++ [['<']]).map some) r).2.input_redirect = true ∧
    (detectRedirect ((pre ++ [['<']]).map some) r).2.input_file = none := by
  induction pre generalizing r with
  | nil => simp [detectRedirect]
  | cons t rest ih =>
    simp only [List.cons_append, List.map_cons, detectRedirect]
    split_ifs <;> exact ih _

theorem detectRedirect_last_output (pre : List Str) (r : Redirect) :
    (detectRedirect ((pre ++ [['>']]).map some) r).2.output_redirect = true ∧
    (detectRedirect ((pre ++ [['>']]).map some) r).2.output_file = none := by
  induction pre generalizing r with
  | nil => simp [detectRedirect]
  | cons t rest ih =>
    simp only [List.cons_append, List.map_cons, detectRedirect]
    split_ifs <;> exact ih _

theorem detectRedirect_last_append (pre : List Str) (r : Redirect) :
    (detectRedirect ((pre ++ [['>', '>']]).map some) r).2.append_redirect = true ∧
    (detectRedirect ((pre ++ [['>', '>']]).map some) r).2.output_file = none := by
  induction pre generalizing r with
  | nil => simp [detectRedirect]
  | cons t rest ih =>
    simp only [List.cons_append, List.map_cons, detectRedirect]
    split_ifs <;> exact ih _

theorem detectRedirect_keeps_input (l : List Str) (h : ['<'] ∉ l) (r : Redirect) :
    (detectRedirect (l.map some) r).2.input_redirect = r.input_redirect ∧
    (detectRedirect (l.map some) r).2.input_file = r.input_file := by
  induction l generalizing r with
  | nil => simp [detectRedirect]
  | cons t rest ih =>
    have ht : t ≠ ['<'] := fun e => h (by simp [e])
    have hrest : ['<'] ∉ rest := fun hx => h (by simp [hx])
    simp only [List.map_cons, detectRedirect, ht, if_false]
    split_ifs
    · exact ih hrest _
    · exact ih hrest _
    · exact ih hrest _

theorem detectRedirect_keeps_output (l : List Str) (h1 : ['>'] ∉ l) (h2 : ['>', '>'] ∉ l)
    (r : Redirect) :
    (detectRedirect (l.map some) r).2.output_redirect = r.output_redirect ∧
    (detectRedirect (l.map some) r).2.append_redirect = r.append_redirect ∧
    (detectRedirect (l.map some) r).2.output_file = r.output_file := by
  induction l generalizing r with
  | nil => simp [detectRedirect]
  | cons t rest ih =>
    have ht1 : t ≠ ['>'] := fun e => h1 (by simp [e])
    have ht2 : t ≠ ['>', '>'] := fun e => h2 (by simp [e])
    have hr1 : ['>'] ∉ rest := fun hx => h1 (by simp [hx])
    have hr2 : ['>', '>'] ∉ rest := fun hx => h2 (by simp [hx])
    simp only [List.map_cons, detectRedirect, ht1, ht2, if_false]
    split_ifs
    · exact ih hr1 hr2 _
    · exact ih hr1 hr2 _

theorem detectRedirect_input_target (pre post : List Str) (f : Str) (h : ['<'] ∉ f :: post)
    (r : Redirect) :
    (detectRedirect ((pre ++ ['<'] :: f :: post).map some) r).2.input_redirect = true ∧
    (detectRedirect ((pre ++ ['<'] :: f :: post).map some) r).2.input_file = some f := by
  induction pre generalizing r with
  | nil =>
    have hk := detectRedirect_keeps_input (f :: post) h
      { r with input_redirect := true, input_file := some f }
    simp only [List.nil_append, List.map_cons, detectRedirect, if_true, List.head?_cons,
      Option.join]
    exact hk
  | cons t rest ih =>
    simp only [List.cons_append, List.map_cons, detectRedirect]
    split_ifs <;> exact ih _

theorem detectRedirect_output_target (pre post : List Str) (op f : Str)
    (hop : op = ['>'] ∨ op = ['>', '>'])
    (h1 : ['>'] ∉ f :: post) (h2 : ['>', '>'] ∉ f :: post) (r : Redirect) :
    ((detectRedirect ((pre ++ op :: f :: post).map some) r).2.output_redirect = true ∨
      (detectRedirect ((pre ++ op :: f :: post).map some) r).2.append_redirect = true) ∧
    (detectRedirect ((pre ++ op :: f :: post).map some) r).2.output_file = some f := by
  induction pre generalizing r with
  | nil =>
    rcases hop with hop | hop
    · subst hop
      have hk := detectRedirect_keeps_output (f :: post) h1 h2
        { r with output_redirect := true, output_file := some f }
      have hne : (['>'] : Str) ≠ ['<'] := by decide
      simp only [List.nil_append, List.map_cons, detectRedirect, hne, if_true, if_false,
        List.head?_cons, Option.join]
      exact ⟨Or.inl hk.1, hk.2.2⟩
    · subst hop
      have hk := detectRedirect_keeps_output (f :: post) h1 h2
        { r with append_redirect := true, output_file := some f }
      have hne : (['>', '>'] : Str) ≠ ['<'] := by decide
      have hne2 : (['>', '>'] : Str) ≠ ['>'] := by decide
      simp only [List.nil_append, List.map_cons, detectRedirect, hne, hne2, if_true, if_false,
        List.head?_cons, Option.join]
      exact ⟨Or.inr hk.2.1, hk.2.2⟩
  | cons t rest ih =>
    simp only [List.cons_append, List.map_cons, detectRedirect]
    split_ifs <;> exact ih _

theorem detectRedirect_output_flags (l : List Str) (r : Redirect) :
    ((detectRedirect (l.map some) r).2.output_redirect = true ↔
      (r.output_redirect = true ∨ ['>'] ∈ l)) ∧
    ((detectRedirect (l.map some) r).2.append_redirect = true ↔
      (r.append_redirect = true ∨ ['>', '>'] ∈ l)) := by
  induction l generalizing r with
  | nil => simp [detectRedirect]
  | cons t rest ih =>
    have n1 : (['<'] : Str) ≠ ['>'] := by decide
    have n2 : (['<'] : Str) ≠ ['>', '>'] := by decide
    have n3 : (['>'] : Str) ≠ ['>', '>'] := by decide
    simp only [List.map_cons, detectRedirect, List.mem_cons]
    by_cases h1 : t = ['<']
    · subst h1
      simp only [if_true]
      constructor
      · rw [(ih _).1]; simp [Ne.symm n1]
      · rw [(ih _).2]; simp [Ne.symm n2]
    · by_cases h2 : t = ['>']
      · subst h2
        simp only [h1, if_false, if_true]
        constructor
        · rw [(ih _).1]; simp
        · rw [(ih _).2]; simp [Ne.symm n3]
      · by_cases h3 : t = ['>', '>']
        · subst h3
          simp only [h1, h2, if_false, if_true]
          constructor
          · rw [(ih _).1]; simp [n3]
          · rw [(ih _).2]; simp
        · simp only [h1, h2, h3, if_false]
          constructor
          · rw [(ih _).1]; simp [Ne.symm h2]
          · rw [(ih _).2]; simp [Ne.symm h3]

/-! ## The children of a pipeline, one by one -/

theorem spawned_get (env : Env) (k : Nat) (r : Redirect) (pipefds pp : List Nat)
    (args : List (Option Str)) (arg_index : Nat) (fds : FdTable) (n : Nat) :
    ∀ (i cs idx j : Nat), j < n →
      ∃ cs2, (spawnedChildren env k r pipefds pp args arg_index fds n i cs idx)[j]? =
        some (pipelineChild env (idx + j) fds (i + j) k r pipefds args cs2) := by
  induction n with
  | zero => intro i cs idx j hj; omega
  | succ n ih =>
    intro i cs idx j hj
    cases j with
    | zero => exact ⟨cs, by simp [spawnedChildren]⟩
    | succ j =>
      obtain ⟨cs2, h⟩ := ih (i + 1) (if i < k then pp.getD i 0 + 1 else arg_index) (idx + 1) j
        (by omega)
      refine ⟨cs2, ?_⟩
      simp only [spawnedChildren, List.getElem?_cons_succ]
      rw [h]
      have e1 : idx + 1 + j = idx + (j + 1) := by omega
      have e2 : i + 1 + j = i + (j + 1) := by omega
      rw [e1, e2]

theorem openFailed_pipelineChild (env : Env) (idx : Nat) (fds : FdTable) (i k : Nat)
    (r : Redirect) (pipefds : List Nat) (args : List (Option Str)) (cs : Nat) :
    (i = 0 → r.input_redirect = true → r.input_file = none →
      openFailed (pipelineChild env idx fds i k r pipefds args cs) = true) ∧
    (i = k → (r.output_redirect = true ∨ r.append_redirect = true) → r.output_file = none →
      openFailed (pipelineChild env idx fds i k r pipefds args cs) = true) ∧
    (execCalls (pipelineChild env idx fds i k r pipefds args cs) =
      if openFailed (pipelineChild env idx fds i k r pipefds args cs) = true then []
      else [(argAt args cs, argvAt args cs)]) := by
  unfold pipelineChild
  rcases stage_cases (i = 0 ∧ r.input_redirect = true) env idx ⟨fds, []⟩ r.input_file
      OpenMode.rdonly 0 "open input file failed" with
    ⟨d, h1, _, _, h2, h3, _⟩ | ⟨p1, h1, _, h2, h3, _, h4, _⟩
  · simp only [h1]
    rw [h2, h3]
    simp [execCalls]
  · simp only [h1]
    rcases stage_cases (i = k ∧ (r.output_redirect = true ∨ r.append_redirect = true)) env idx
        p1 r.output_file (if r.output_redirect = true then OpenMode.truncate else OpenMode.append)
        1 "open output file failed" with
      ⟨d, k1, _, _, k2, k3, _⟩ | ⟨p2, k1, _, k2, k3, _, k4, _⟩
    · simp only [k1]
      rw [k2, k3, h2]
      simp [execCalls]
    · simp only [k1]
      have hof : openFailed p2 = false := by rw [k3, h3]; rfl
      have hex : execCalls p2 = [] := by rw [k2, h2]; rfl
      refine ⟨?_, ?_, ?_⟩
      · intro hi hr hf
        obtain ⟨f, hf2, _⟩ := h4 ⟨hi, hr⟩
        rw [hf] at hf2
        exact Option.noConfusion hf2
      · intro hi hr hf
        obtain ⟨f, hf2, _⟩ := k4 ⟨hi, hr⟩
        rw [hf] at hf2
        exact Option.noConfusion hf2
      · rw [execCalls_sysExecvp, openFailed_sysExecvp, execCalls_foldl_sysClose,
          openFailed_foldl_sysClose]
        split <;> split <;>
          simp only [execCalls_sysDup2, openFailed_sysDup2, hof, hex] <;> simp

theorem openFailed_singleChild (env : Env) (idx : Nat) (fds : FdTable) (r : Redirect)
    (args : List (Option Str))
    (h : (r.input_redirect = true ∧ r.input_file = none) ∨
      ((r.output_redirect = true ∨ r.append_redirect = true) ∧ r.output_file = none)) :
    openFailed (singleChild env idx fds r args) = true := by
  unfold singleChild
  rcases stage_cases (r.input_redirect = true) env idx ⟨fds, []⟩ r.input_file OpenMode.rdonly 0
      "open input file failed" with ⟨d, h1, _, _, _, h3, _⟩ | ⟨p1, h1, _, _, h3, _, h4, _⟩
  · simp only [h1]
    exact h3
  · simp only [h1]
    rcases stage_cases (r.output_redirect = true) env idx p1 r.output_file OpenMode.truncate 1
        "open output file failed" with ⟨d, k1, _, _, _, k3, _⟩ | ⟨p2, k1, _, _, k3, _, k4, _⟩
    · simp only [k1]
      exact k3
    · simp only [k1]
      rcases stage_cases (r.append_redirect = true) env idx p2 r.output_file OpenMode.append 1
          "open append file failed" with ⟨d, l1, _, _, _, l3, _⟩ | ⟨p3, l1, _, _, l3, _, l4, _⟩
      · simp only [l1]
        exact l3
      · simp only [l1]
        exfalso
        rcases h with ⟨hr, hf⟩ | ⟨hr | hr, hf⟩
        · obtain ⟨f, hf2, _⟩ := h4 hr
          rw [hf] at hf2
          exact Option.noConfusion hf2
        · obtain ⟨f, hf2, _⟩ := k4 hr
          rw [hf] at hf2
          exact Option.noConfusion hf2
        · obtain ⟨f, hf2, _⟩ := l4 hr
          rw [hf] at hf2
          exact Option.noConfusion hf2

theorem sysExecvp_sys (env : Env) (idx : Nat) (p : Proc) (file : Option Str)
    (argv : List Str) : ∃ X, (Proc.sysExecvp env idx p file argv).sys = p.sys ++ X := by
  cases file with
  | none =>
    exact ⟨[Sys.execvp none argv false], by simp [Proc.sysExecvp]⟩
  | some f =>
    by_cases h : env.execOk idx f argv = true
    · exact ⟨[Sys.execvp (some f) argv true], by simp [Proc.sysExecvp, h]⟩
    · exact ⟨[Sys.execvp (some f) argv false, Sys.perror "execvp failed", Sys.exit 1], by
        simp [Proc.sysExecvp, h, Proc.die]⟩

theorem pipelineChild_first (env : Env) (idx : Nat) (fds : FdTable) (k : Nat) (hk : 1 ≤ k)
    (r : Redirect) (pipefds : List Nat) (args : List (Option Str)) (cs : Nat)
    (hr : r.input_redirect = true) :
    openCalls (pipelineChild env idx fds 0 k r pipefds args cs) =
      [(r.input_file, OpenMode.rdonly)] ∧
    ((∃ fd X, (pipelineChild env idx fds 0 k r pipefds args cs).sys =
        [Sys.openFile r.input_file OpenMode.rdonly (some fd), Sys.dup2 fd 0, Sys.close fd]
          ++ X) ∨
      (pipelineChild env idx fds 0 k r pipefds args cs).sys =
        [Sys.openFile r.input_file OpenMode.rdonly none, Sys.perror "open input file failed",
          Sys.exit 1]) := by
  have hk0 : ¬ (0 = k) := by omega
  have hlt : 0 < k := by omega
  unfold pipelineChild
  simp only [true_and, hr, if_true]
  rcases redirectFd_cases env idx ⟨fds, []⟩ r.input_file OpenMode.rdonly 0
      "open input file failed" with
    ⟨d, h1, hs⟩ | ⟨p1, f, h1, _, _, hs, _⟩
  · simp only [h1]
    refine ⟨by simp [openCalls, hs], Or.inr (by rw [hs]; simp)⟩
  · simp only [h1, hk0, false_and, if_false, hlt, if_true, gt_iff_lt, Nat.lt_irrefl]
    rw [openCalls_sysExecvp, openCalls_foldl_sysClose, openCalls_sysDup2]
    refine ⟨by simp [openCalls, hs], Or.inl ?_⟩
    obtain ⟨X, hX⟩ := sysExecvp_sys env idx
      (pipefds.foldl Proc.sysClose (Proc.sysDup2 p1 (pipefds.getD (0 * 2 + 1) 0) 1))
      (argAt args cs) (argvAt args cs)
    rw [hX, foldl_sysClose_sys]
    simp only [Proc.sysDup2, hs, List.nil_append, List.append_assoc]
    exact ⟨_, _, rfl⟩

theorem pipelineChild_last (env : Env) (idx : Nat) (fds : FdTable) (k : Nat) (hk : 1 ≤ k)
    (r : Redirect) (pipefds : List Nat) (args : List (Option Str)) (cs : Nat)
    (hr : r.output_redirect = true ∨ r.append_redirect = true) :
    openCalls (pipelineChild env idx fds k k r pipefds args cs) =
        [(r.output_file,
          if r.output_redirect = true then OpenMode.truncate else OpenMode.append)] ∧
      ((∃ fd X, (pipelineChild env idx fds k k r pipefds args cs).sys =
          [Sys.openFile r.output_file
              (if r.output_redirect = true then OpenMode.truncate else OpenMode.append)
              (some fd), Sys.dup2 fd 1, Sys.close fd] ++ X) ∨
        (pipelineChild env idx fds k k r pipefds args cs).sys =
          [Sys.openFile r.output_file
              (if r.output_redirect = true then OpenMode.truncate else OpenMode.append) none,
            Sys.perror "open output file failed", Sys.exit 1]) := by
  have hk0 : ¬ (k = 0) := by omega
  have hlt : 0 < k := by omega
  unfold pipelineChild
  simp only [hk0, false_and, if_false, true_and, hr, if_true]
  rcases redirectFd_cases env idx ⟨fds, []⟩ r.output_file
      (if r.output_redirect = true then OpenMode.truncate else OpenMode.append) 1
      "open output file failed" with
    ⟨d, h1, hs⟩ | ⟨p1, f, h1, _, _, hs, _⟩
  · simp only [h1]
    refine ⟨by simp [openCalls, hs], Or.inr (by rw [hs]; simp)⟩
  · simp only [h1, Nat.lt_irrefl, if_false, gt_iff_lt, hlt, if_true]
    rw [openCalls_sysExecvp, openCalls_foldl_sysClose, openCalls_sysDup2]
    refine ⟨by simp [openCalls, hs], Or.inl ?_⟩
    obtain ⟨X, hX⟩ := sysExecvp_sys env idx
      (pipefds.foldl Proc.sysClose (Proc.sysDup2 p1 (pipefds.getD ((k - 1) * 2) 0) 0))
      (argAt args cs) (argvAt args cs)
    rw [hX, foldl_sysClose_sys]
    simp only [Proc.sysDup2, hs, List.nil_append, List.append_assoc]
    exact ⟨_, _, rfl⟩

theorem pipelineChild_middle (env : Env) (idx : Nat) (fds : FdTable) (i k : Nat)
    (h0 : 0 < i) (hk : i < k)
    (r : Redirect) (pipefds : List Nat) (args : List (Option Str)) (cs : Nat) :
    openCalls (pipelineChild env idx fds i k r pipefds args cs) = [] := by
  have hi0 : ¬ (i = 0) := by omega
  have hik : ¬ (i = k) := by omega
  unfold pipelineChild
  simp only [hi0, hik, false_and, if_false, hk, if_true, gt_iff_lt, h0]
  rw [openCalls_sysExecvp, openCalls_foldl_sysClose, openCalls_sysDup2, openCalls_sysDup2]
  rfl

theorem pipelineChild_ends_no_redirect (env : Env) (idx : Nat) (fds : FdTable) (k : Nat)
    (hk : 1 ≤ k) (r : Redirect) (pipefds : List Nat) (args : List (Option Str)) (cs : Nat) :
    (r.input_redirect = false →
      openCalls (pipelineChild env idx fds 0 k r pipefds args cs) = []) ∧
    (r.output_redirect = false → r.append_redirect = false →
      openCalls (pipelineChild env idx fds k k r pipefds args cs) = []) := by
  have hk0 : ¬ (k = 0) := by omega
  have h0k : ¬ (0 = k) := by omega
  have hlt : 0 < k := by omega
  constructor
  · intro hr
    unfold pipelineChild
    simp only [hr, Bool.false_eq_true, and_false, if_false, h0k, false_and, hlt, if_true,
      gt_iff_lt, Nat.lt_irrefl]
    rw [openCalls_sysExecvp, openCalls_foldl_sysClose, openCalls_sysDup2]
    rfl
  · intro h1 h2
    unfold pipelineChild
    simp only [hk0, false_and, if_false, h1, h2, Bool.false_eq_true, or_self, and_false,
      Nat.lt_irrefl, gt_iff_lt, hlt, if_true]
    rw [openCalls_sysExecvp, openCalls_foldl_sysClose, openCalls_sysDup2]
    rfl

/-! ## Descriptors of a pipeline -/

/-- C1: the line `false & echo hi` is split into `false ` and ` echo hi`; the
child running `false` ends with exit status 1, the loop over the sub-commands
nevertheless goes on (the text of the sub-command holds no `&` any more), and a
second child executes `echo hi`. -/
theorem short_circuit_missed :
    splitCommands "false & echo hi".toList = ["false ".toList, " echo hi".toList] ∧
    WEXITSTATUS (runCommand (Env.allOk 1) (Shell.start 0) "false ".toList).1.status = 1 ∧
    (runCommand (Env.allOk 1) (Shell.start 0) "false ".toList).2 = Ctl.next ∧
    (forked (processLine (Env.allOk 1) (Shell.start 0) "false & echo hi".toList).1.trace).map
        execCalls =
      [[(some "false".toList, ["false".toList])],
       [(some "echo".toList, ["echo".toList, "hi".toList])]] := by
  decide

/-- C3 fails for `cat >`: one child is forked for this sub-command. -/
theorem dangling_redirect_spawns :
    (forked (processLine (Env.allOk 0) (Shell.start 0) "cat >".toList).1.trace).length = 1 := by
  decide

/-- C4 fails for `sort < in.txt -r`: the program is executed with the argument
vector `sort`, not `sort -r`. -/
theorem argv_not_kept_after_redirect :
    (forked (processLine (Env.allOk 0) (Shell.start 0) "sort < in.txt -r".toList).1.trace).map
        execCalls = [[(some "sort".toList, ["sort".toList])]] ∧
    (forked (processLine (Env.allOk 0) (Shell.start 0) "sort < in.txt -r".toList).1.trace).map
        execCalls ≠ [[(some "sort".toList, ["sort".toList, "-r".toList])]] := by
  decide

/-- C5: for `echo x > a >> b` the child opens `b` truncating and then appending;
in the pipeline `ls | cat > a >> b` the last child opens `b` truncating only. -/
theorem append_target_truncated :
    (forked (processLine (Env.allOk 0) (Shell.start 0) "echo x > a >> b".toList).1.trace).map
        openCalls =
      [[(some "b".toList, OpenMode.truncate), (some "b".toList, OpenMode.append)]] ∧
    (forked (processLine (Env.allOk 0) (Shell.start 0) "ls | cat > a >> b".toList).1.trace).map
        openCalls = [[], [(some "b".toList, OpenMode.truncate)]] := by
  decide

/-- C6 fails for `cat | wc < f`: the input redirection written in the second
segment makes the child of the first segment open `f` and read from it, while
in `cat | wc` this child opens nothing and keeps the standard input of the
shell. -/
theorem redirect_in_other_segment_applies :
    (forked (processLine (Env.allOk 0) (Shell.start 0) "cat | wc < f".toList).1.trace).map
        (fun c => (openCalls c, fdGet c.fds 0)) =
      [([(some "f".toList, OpenMode.rdonly)], some (Obj.file "f".toList OpenMode.rdonly)),
       ([], some (Obj.pipeRead 0))] ∧
    (forked (processLine (Env.allOk 0) (Shell.start 0) "cat | wc".toList).1.trace).map
        (fun c => (openCalls c, fdGet c.fds 0)) =
      [([], some (Obj.inherited 0)), ([], some (Obj.pipeRead 0))] := by
  constructor <;> rfl

/-- C8: for `ls |` a second child is forked and calls `execvp` with a `NULL`
program name and an empty argument vector; for `> f` the only child does the
same. -/
theorem empty_segment_spawned :
    (forked (processLine (Env.allOk 0) (Shell.start 0) "ls |".toList).1.trace).map execCalls =
      [[(some "ls".toList, ["ls".toList])], [(none, [])]] ∧
    (forked (processLine (Env.allOk 0) (Shell.start 0) "> f".toList).1.trace).map execCalls =
      [[(none, [])]] := by
  decide

/-- C9 fails when `pipe` fails on `ls | wc`: the shell calls `exit(1)` and the
next line is not read. -/
theorem pipe_failure_exits :
    (processLine Env.pipeFails (Shell.start 0) "ls | wc".toList).2 = some 1 ∧
    (mainLoop Env.pipeFails ["ls | wc\n".toList, "echo hi\n".toList] (Shell.start 0)).2 = 1 ∧
    (mainLoop Env.pipeFails ["ls | wc\n".toList, "echo hi\n".toList] (Shell.start 0)).1.trace =
      [Event.print "sh> ", Event.pipe none, Event.perror "pipe failed", Event.exit 1] := by
  decide

theorem spawnedChildren_length (env : Env) (num_pipes : Nat) (r : Redirect)
    (pipefds pp : List Nat) (args : List (Option Str)) (arg_index : Nat) (fds : FdTable)
    (n i cs idx : Nat) :
    (spawnedChildren env num_pipes r pipefds pp args arg_index fds n i cs idx).length = n := by
  induction n generalizing i cs idx with
  | zero => rfl
  | succ n ih => simp [spawnedChildren, ih]

theorem flatFds_length (pairs : List (Nat × Nat)) : (flatFds pairs).length = 2 * pairs.length := by
  induction pairs with
  | nil => rfl
  | cons p rest ih =>
    simp only [flatFds, List.flatMap_cons, List.length_append, List.length_cons,
      List.length_nil] at ih ⊢
    omega

theorem tokenize_ne_nil_of_segments (toks : List Str)
    (hseg : ∀ seg ∈ toks.splitOn ['|'], seg ≠ []) : toks ≠ [] := by
  intro h
  subst h
  exact hseg [] (by simp [List.splitOn]) rfl

/-- C2: a line that is one sub-command with `k` pipe tokens and no empty segment,
when every `pipe` and `fork` call succeeds: the shell makes exactly `k` `pipe`
calls, then forks exactly `k + 1` children, then closes the `2 * k` descriptors
of these pipes, then calls `wait` exactly `k + 1` times, and makes no other
call. -/
theorem pipeline_spawn_count (env : Env) (st : Shell) (input cmd : Str) (k : Nat)
    (hline : splitCommands input = [cmd])
    (hk : (tokenize cmd).count ['|'] = k)
    (hseg : ∀ seg ∈ (tokenize cmd).splitOn ['|'], seg ≠ [])
    (hpipe : ∀ n, env.pipeOk n = true) (hfork : ∀ n, env.forkOk n = true) :
    ∃ (pairs : List (Nat × Nat)) (children : List Proc),
      pairs.length = k ∧ children.length = k + 1 ∧ (flatFds pairs).length = 2 * k ∧
      (processLine env st input).1.trace =
        st.trace ++ pairs.map (fun p => Event.pipe (some p)) ++
          children.map (fun c => Event.fork (some c)) ++
          (flatFds pairs).map Event.close ++ waitEvents env st.waits (k + 1) := by
  have hne := tokenize_ne_nil_of_segments (tokenize cmd) hseg
  have hproc : (processLine env st input).1 = (runCommand env st cmd).1 := by
    unfold processLine
    rw [hline]
    simp only [runCommands]
    split <;> simp_all [runCommands]
  rw [hproc]
  by_cases hz : k = 0
  · subst hz
    refine ⟨[], [singleChild env st.forks st.fds (redirOf (tokenize cmd))
      (argsOf (tokenize cmd))], rfl, rfl, rfl, ?_⟩
    rw [runCommand_single_trace env st cmd hne hk (hfork _)]
    simp [flatFds, waitEvents, List.range_succ]
  · have hpos : 0 < (tokenize cmd).count ['|'] := by omega
    obtain ⟨st1, pairs, _, h2, _, h4⟩ := runCommand_pipeline env st cmd hpipe hfork hpos
    rw [hk] at h2 h4
    refine ⟨pairs, _, h2, ?_, ?_, h4⟩
    · rw [spawnedChildren_length]
    · rw [flatFds_length, h2]

theorem pipeline_spawn_count_witness :
    ∃ (pairs : List (Nat × Nat)) (children : List Proc),
      pairs.length = 2 ∧ children.length = 2 + 1 ∧ (flatFds pairs).length = 2 * 2 ∧
      (processLine (Env.allOk 0) (Shell.start 0) "ls -l | grep a | wc".toList).1.trace =
        (Shell.start 0).trace ++ pairs.map (fun p => Event.pipe (some p)) ++
          children.map (fun c => Event.fork (some c)) ++
          (flatFds pairs).map Event.close ++ waitEvents (Env.allOk 0) (Shell.start 0).waits (2 + 1) :=
  pipeline_spawn_count (Env.allOk 0) (Shell.start 0) "ls -l | grep a | wc".toList
    "ls -l | grep a | wc".toList 2 (by decide) (by decide) (by decide)
    (fun _ => rfl) (fun _ => rfl)

/-! ## Argument vectors -/

theorem openFailed_singleChild_init (env : Env) (idx : Nat) (fds : FdTable)
    (args : List (Option Str)) :
    openFailed (singleChild env idx fds Redirect.init args) = false := by
  unfold singleChild
  simp only [Redirect.init, Bool.false_eq_true, if_false]
  rw [openFailed_sysExecvp]
  rfl

theorem takeWhile_isWord_no_pipe (toks : List Str) (h : ['|'] ∉ toks) :
    toks.takeWhile isWord = toks.takeWhile (fun t => !isRedirOp t) := by
  induction toks with
  | nil => rfl
  | cons t rest ih =>
    have ht : t ≠ ['|'] := fun e => h (by simp [e])
    have hrest := ih (fun hx => h (by simp [hx]))
    have hw : isWord t = !isRedirOp t := by simp [isWord, ht]
    simp only [List.takeWhile_cons, hw, hrest]

theorem drop_trace (a b : List Event) (tr : List Event) (h : tr = a ++ b) :
    tr.drop a.length = b := by
  rw [h, List.drop_left]

theorem intercalate_splitOn_pipe (l : List Str) : [['|']].intercalate (l.splitOn ['|']) = l := by
  have h : l.splitOn ['|'] = @List.splitOn Str instBEqOfDecidableEq ['|'] l := by
    unfold List.splitOn
    congr 1
    funext y
    rw [Bool.eq_iff_iff]
    simp
  rw [h]
  exact List.intercalate_splitOn l ['|']

/-- C10: a sub-command with `k` pipe tokens, no redirection operator and no
empty segment, when every `pipe` and `fork` call succeeds: the token list has
`k + 1` segments (the parts between the pipe tokens), the children forked for
the sub-command are, in order, one per segment, each makes exactly one `execvp`
call whose program name is the first token of its segment and whose argument
vector is the segment, and putting the segments together again with a pipe
token between neighbours gives the token list. -/
theorem segment_partition (env : Env) (st : Shell) (cmd : Str) (k : Nat)
    (hk : (tokenize cmd).count ['|'] = k)
    (hnr : ∀ t ∈ tokenize cmd, isRedirOp t = false)
    (hseg : ∀ seg ∈ (tokenize cmd).splitOn ['|'], seg ≠ [])
    (hpipe : ∀ n, env.pipeOk n = true) (hfork : ∀ n, env.forkOk n = true) :
    ((tokenize cmd).splitOn ['|']).length = k + 1 ∧
    (forked ((runCommand env st cmd).1.trace.drop st.trace.length)).map execCalls =
      ((tokenize cmd).splitOn ['|']).map (fun seg => [(seg.head?, seg)]) ∧
    (∀ seg ∈ (tokenize cmd).splitOn ['|'], ∃ prog rest, seg = prog :: rest) ∧
    [['|']].intercalate ((tokenize cmd).splitOn ['|']) = tokenize cmd := by
  have hne := tokenize_ne_nil_of_segments (tokenize cmd) hseg
  have hmain : (forked ((runCommand env st cmd).1.trace.drop st.trace.length)).map execCalls =
      ((tokenize cmd).splitOn ['|']).map (fun seg => [(seg.head?, seg)]) ∧
      (forked ((runCommand env st cmd).1.trace.drop st.trace.length)).length = k + 1 := by
    by_cases hz : k = 0
    · subst hz
      have hp : ['|'] ∉ tokenize cmd := List.count_eq_zero.mp hk
      have htr := runCommand_single_trace env st cmd hne hk (hfork _)
      rw [drop_trace _ _ _ htr]
      have hr : redirOf (tokenize cmd) = Redirect.init := by
        unfold redirOf
        rw [detectRedirect_noop _ _ hnr]
      simp only [forked, List.filterMap_cons, List.filterMap_nil, List.map_cons, List.map_nil,
        List.length_singleton, and_true]
      rw [execCalls_singleChild, hr, openFailed_singleChild_init, splitOn_pipe_single _ hp,
        argvAt_argsOf, argAt_argsOf, List.drop_zero, takeWhile_isWord_all _ hnr hp]
      simp
    · have hpos : 0 < (tokenize cmd).count ['|'] := by omega
      obtain ⟨st1, pairs, _, _, _, h4⟩ := runCommand_pipeline env st cmd hpipe hfork hpos
      simp only [List.append_assoc] at h4
      rw [drop_trace _ _ _ h4]
      simp only [forked_append, forked_pipes, forked_forks, forked_closes, forked_waits,
        List.nil_append, List.append_nil]
      have hr : redirOf (tokenize cmd) = Redirect.init := by
        unfold redirOf
        rw [detectRedirect_noop _ _ hnr]
      rw [hr, spawnedChildren_length, hk]
      refine ⟨?_, rfl⟩
      have h := spawned_exec_segments env (flatFds pairs) st1.fds (tokenize cmd) hnr (k + 1)
        [] (tokenize cmd) st.forks (by simp) (by omega)
      rw [hk] at h
      simpa using h
  refine ⟨?_, hmain.1, ?_, intercalate_splitOn_pipe _⟩
  · have h := congrArg List.length hmain.1
    simp only [List.length_map] at h
    rw [← h, hmain.2]
  · intro seg hs
    cases seg with
    | nil => exact absurd rfl (hseg [] hs)
    | cons prog rest => exact ⟨prog, rest, rfl⟩

theorem segment_partition_witness :
    (("ls -l | grep a | wc".toList |> tokenize).splitOn ['|']).length = 2 + 1 ∧
    (forked ((runCommand (Env.allOk 0) (Shell.start 0) "ls -l | grep a | wc".toList).1.trace.drop
        (Shell.start 0).trace.length)).map execCalls =
      ((tokenize "ls -l | grep a | wc".toList).splitOn ['|']).map
        (fun seg => [(seg.head?, seg)]) ∧
    (∀ seg ∈ (tokenize "ls -l | grep a | wc".toList).splitOn ['|'],
      ∃ prog rest, seg = prog :: rest) ∧
    [['|']].intercalate ((tokenize "ls -l | grep a | wc".toList).splitOn ['|']) =
      tokenize "ls -l | grep a | wc".toList :=
  segment_partition (Env.allOk 0) (Shell.start 0) "ls -l | grep a | wc".toList 2
    (by decide) (by decide) (by decide) (fun _ => rfl) (fun _ => rfl)

/-- C4, amended: a sub-command without pipe token, when `fork` succeeds: one
child is forked; unless one of its `open` calls has failed it makes exactly one
`execvp` call, and the argument vector of this call is the token list cut at
its first redirection operator (the program name is the first token of that
vector); after a failed `open` it makes no `execvp` call. -/
theorem argv_cut_at_first_redirect (env : Env) (st : Shell) (cmd : Str)
    (hne : tokenize cmd ≠ []) (hk : ['|'] ∉ tokenize cmd)
    (hfork : env.forkOk st.forks = true) :
    ∃ child, forked ((runCommand env st cmd).1.trace.drop st.trace.length) = [child] ∧
      execCalls child =
        if openFailed child = true then []
        else [(((tokenize cmd).takeWhile (fun t => !isRedirOp t)).head?,
               (tokenize cmd).takeWhile (fun t => !isRedirOp t))] := by
  have hc : (tokenize cmd).count ['|'] = 0 := List.count_eq_zero_of_not_mem hk
  have htr := runCommand_single_trace env st cmd hne hc hfork
  refine ⟨singleChild env st.forks st.fds (redirOf (tokenize cmd)) (argsOf (tokenize cmd)),
    ?_, ?_⟩
  · rw [drop_trace _ _ _ htr]
    simp [forked]
  · rw [execCalls_singleChild, argvAt_argsOf, argAt_argsOf, List.drop_zero,
      takeWhile_isWord_no_pipe _ hk]

theorem argv_cut_at_first_redirect_witness :
    ∃ child, forked ((runCommand (Env.allOk 0) (Shell.start 0)
        "sort < in.txt -r".toList).1.trace.drop (Shell.start 0).trace.length) = [child] ∧
      execCalls child =
        if openFailed child = true then []
        else [(((tokenize "sort < in.txt -r".toList).takeWhile (fun t => !isRedirOp t)).head?,
               (tokenize "sort < in.txt -r".toList).takeWhile (fun t => !isRedirOp t))] :=
  argv_cut_at_first_redirect (Env.allOk 0) (Shell.start 0) "sort < in.txt -r".toList
    (by decide) (by decide) rfl

/-! ## Failing `pipe` and `fork` calls -/

theorem allocPipes_fail (env : Env) (n : Nat) :
    ∀ (st : Shell) (acc : List Nat), (∃ j, j < n ∧ env.pipeOk (st.pipes + j) = false) →
      ∃ st1 evs, allocPipes env n st acc = (st1, none) ∧
        st1.trace = st.trace ++ evs ++ [Event.perror "pipe failed", Event.exit 1] ∧
        forked evs = [] := by
  induction n with
  | zero => intro st acc ⟨j, hj, _⟩; omega
  | succ n ih =>
    intro st acc ⟨j, hj, hfail⟩
    by_cases hok : env.pipeOk st.pipes = true
    · have hj0 : j ≠ 0 := by
        intro h0
        rw [h0, Nat.add_zero, hok] at hfail
        exact Bool.noConfusion hfail
      obtain ⟨st1, evs, h1, h2, h3⟩ := ih
        { st with fds := fdSet (fdSet st.fds (lowestFree st.fds) (some (Obj.pipeRead st.pipes)))
                    (lowestFree (fdSet st.fds (lowestFree st.fds) (some (Obj.pipeRead st.pipes))))
                    (some (Obj.pipeWrite st.pipes)),
                  pipes := st.pipes + 1,
                  trace := st.trace ++ [Event.pipe (some (lowestFree st.fds,
                    lowestFree (fdSet st.fds (lowestFree st.fds)
                      (some (Obj.pipeRead st.pipes)))))] }
        (acc ++ [lowestFree st.fds,
          lowestFree (fdSet st.fds (lowestFree st.fds) (some (Obj.pipeRead st.pipes)))])
        ⟨j - 1, by omega, by
          have : st.pipes + 1 + (j - 1) = st.pipes + j := by omega
          simpa [this] using hfail⟩
      refine ⟨st1, Event.pipe (some (lowestFree st.fds,
          lowestFree (fdSet st.fds (lowestFree st.fds) (some (Obj.pipeRead st.pipes))))) :: evs,
        ?_, ?_, ?_⟩
      · simp only [allocPipes, hok, if_true]
        exact h1
      · rw [h2]; simp
      · simpa [forked] using h3
    · refine ⟨_, [Event.pipe none], by simp only [allocPipes, hok]; rfl, by simp, by
        simp [forked]⟩

/-- C9, amended: a failed `fork` for a sub-command without pipe token is
reported and the shell goes on with the next sub-command, no child having been
made; a failed `pipe` call of a pipeline is reported and the shell then calls
`exit(1)`: no child is forked for the pipeline and the later sub-commands are
not run. -/
theorem pipe_failure_fatal_fork_failure_not (env : Env) (st : Shell) (cmd : Str)
    (rest : List Str) (hne : tokenize cmd ≠ []) :
    ((tokenize cmd).count ['|'] = 0 → env.forkOk st.forks = false →
      runCommands env (cmd :: rest) st =
        runCommands env rest
          { st with forks := st.forks + 1,
                    trace := st.trace ++ [Event.fork none, Event.perror "fork failed"] }) ∧
    ((∃ j, j < (tokenize cmd).count ['|'] ∧ env.pipeOk (st.pipes + j) = false) →
      ∃ evs, runCommands env (cmd :: rest) st =
          ((runCommands env (cmd :: rest) st).1, some 1) ∧
        (runCommands env (cmd :: rest) st).1.trace =
          st.trace ++ evs ++ [Event.perror "pipe failed", Event.exit 1] ∧
        forked evs = []) := by
  have hlen := pipePosOf_length (tokenize cmd)
  unfold pipePosOf at hlen
  constructor
  · intro hk hfork
    rw [hk] at hlen
    have hrun : runCommand env st cmd =
        ({ st with forks := st.forks + 1,
                   trace := st.trace ++ [Event.fork none, Event.perror "fork failed"] },
          Ctl.next) := by
      unfold runCommand
      simp only [hne, if_false, hlen, gt_iff_lt, Nat.lt_irrefl, hfork, Bool.false_eq_true]
    simp only [runCommands, hrun]
  · intro hfail
    have hpos : 0 < (tokenize cmd).count ['|'] := by
      obtain ⟨j, hj, _⟩ := hfail
      omega
    obtain ⟨st1, evs, h1, h2, h3⟩ :=
      allocPipes_fail env ((tokenize cmd).count ['|']) st [] hfail
    have hrun : runCommand env st cmd = (st1, Ctl.exit 1) := by
      unfold runCommand
      simp only [hne, if_false, hlen, gt_iff_lt, hpos, if_true, h1]
    refine ⟨evs, ?_, ?_, h3⟩
    · simp only [runCommands, hrun]
    · simp only [runCommands, hrun]
      exact h2

theorem pipe_failure_fatal_fork_failure_not_witness :
    (runCommands { Env.allOk 0 with forkOk := fun _ => false }
        ["ls -l".toList, "echo hi".toList] (Shell.start 0) =
      runCommands { Env.allOk 0 with forkOk := fun _ => false } ["echo hi".toList]
        { Shell.start 0 with
            forks := (Shell.start 0).forks + 1,
            trace := (Shell.start 0).trace ++ [Event.fork none, Event.perror "fork failed"] }) ∧
    (∃ evs, runCommands Env.pipeFails ["ls | wc".toList, "echo hi".toList] (Shell.start 0) =
          ((runCommands Env.pipeFails ["ls | wc".toList, "echo hi".toList] (Shell.start 0)).1,
            some 1) ∧
        (runCommands Env.pipeFails ["ls | wc".toList, "echo hi".toList] (Shell.start 0)).1.trace =
          (Shell.start 0).trace ++ evs ++ [Event.perror "pipe failed", Event.exit 1] ∧
        forked evs = []) :=
  ⟨(pipe_failure_fatal_fork_failure_not { Env.allOk 0 with forkOk := fun _ => false }
      (Shell.start 0) "ls -l".toList ["echo hi".toList] (by decide)).1 (by decide) rfl,
   (pipe_failure_fatal_fork_failure_not Env.pipeFails (Shell.start 0) "ls | wc".toList
      ["echo hi".toList] (by decide)).2 ⟨0, by decide, rfl⟩⟩

/-! ## Redirections of a sub-command -/

theorem runCommands_next (env : Env) (st : Shell) (cmd : Str) (rest : List Str)
    (h : (runCommand env st cmd).2 = Ctl.next) :
    runCommands env (cmd :: rest) st = runCommands env rest (runCommand env st cmd).1 := by
  cases hrc : runCommand env st cmd with
  | mk s c =>
    rw [hrc] at h
    simp only at h
    subst h
    simp only [runCommands, hrc]

theorem redirOf_last (pre : List Str) (op : Str) (hop : isRedirOp op = true) :
    (op = ['<'] → (redirOf (pre ++ [op])).input_redirect = true ∧
      (redirOf (pre ++ [op])).input_file = none) ∧
    (op ≠ ['<'] → ((redirOf (pre ++ [op])).output_redirect = true ∨
      (redirOf (pre ++ [op])).append_redirect = true) ∧
      (redirOf (pre ++ [op])).output_file = none) := by
  unfold redirOf
  simp only [isRedirOp, decide_eq_true_eq] at hop
  constructor
  · intro h
    subst h
    exact detectRedirect_last_input pre Redirect.init
  · intro h
    rcases hop with hop | hop | hop
    · exact absurd hop h
    · subst hop
      have := detectRedirect_last_output pre Redirect.init
      exact ⟨Or.inl this.1, this.2⟩
    · subst hop
      have := detectRedirect_last_append pre Redirect.init
      exact ⟨Or.inr this.1, this.2⟩

/-- C3, amended: a sub-command of a line whose last token is a redirection
operator (no file target follows), when every `pipe` and `fork` call succeeds:
the shell still forks one child per segment (`k + 1` children for `k` pipe
tokens); the child that applies this redirection (the first one for `<`, the
last one for `>` and `>>`) has an `open` call that fails and calls `execvp`
never; the shell goes on with the next sub-command. -/
theorem dangling_redirect_child_fails (env : Env) (st : Shell) (input cmd : Str)
    (rest pre : List Str) (op : Str) (k : Nat)
    (hcmd : cmd ∈ splitCommands input)
    (htok : tokenize cmd = pre ++ [op]) (hop : isRedirOp op = true)
    (hk : (tokenize cmd).count ['|'] = k)
    (hpipe : ∀ n, env.pipeOk n = true) (hfork : ∀ n, env.forkOk n = true) :
    runCommands env (cmd :: rest) st = runCommands env rest (runCommand env st cmd).1 ∧
    (forked ((runCommand env st cmd).1.trace.drop st.trace.length)).length = k + 1 ∧
    ∃ c, (forked ((runCommand env st cmd).1.trace.drop st.trace.length))[
        if op = ['<'] then 0 else k]? = some c ∧
      openFailed c = true ∧ execCalls c = [] := by
  have hamp := amp_not_mem_of_mem_splitCommands input cmd hcmd
  have hne : tokenize cmd ≠ [] := by rw [htok]; simp
  obtain ⟨hin, hout⟩ := redirOf_last pre op hop
  rw [← htok] at hin hout
  by_cases hz : k = 0
  · subst hz
    have htr := runCommand_single_trace env st cmd hne hk (hfork _)
    refine ⟨runCommands_next env st cmd rest (runCommand_single_next env st cmd hk hamp), ?_, ?_⟩
    · rw [drop_trace _ _ _ htr]
      simp [forked]
    · rw [drop_trace _ _ _ htr]
      refine ⟨singleChild env st.forks st.fds (redirOf (tokenize cmd)) (argsOf (tokenize cmd)),
        by simp [forked], ?_⟩
      have hf : openFailed (singleChild env st.forks st.fds (redirOf (tokenize cmd))
          (argsOf (tokenize cmd))) = true := by
        apply openFailed_singleChild
        by_cases ho : op = ['<']
        · exact Or.inl (hin ho)
        · exact Or.inr (hout ho)
      refine ⟨hf, ?_⟩
      rw [execCalls_singleChild, hf]
      rfl
  · have hpos : 0 < (tokenize cmd).count ['|'] := by omega
    obtain ⟨st1, pairs, _, _, h3, h4⟩ := runCommand_pipeline env st cmd hpipe hfork hpos
    simp only [List.append_assoc] at h4
    refine ⟨runCommands_next env st cmd rest h3, ?_, ?_⟩
    · rw [drop_trace _ _ _ h4]
      simp only [forked_append, forked_pipes, forked_forks, forked_closes, forked_waits,
        List.nil_append, List.append_nil, spawnedChildren_length, hk]
    · rw [drop_trace _ _ _ h4]
      simp only [forked_append, forked_pipes, forked_forks, forked_closes, forked_waits,
        List.nil_append, List.append_nil]
      rw [hk]
      obtain ⟨cs2, hget⟩ := spawned_get env k (redirOf (tokenize cmd)) (flatFds pairs)
        (pipePosOf (tokenize cmd)) (argsOf (tokenize cmd)) (tokenize cmd).length st1.fds
        (k + 1) 0 0 st.forks (if op = ['<'] then 0 else k) (by split <;> omega)
      refine ⟨_, hget, ?_⟩
      obtain ⟨g1, g2, g3⟩ := openFailed_pipelineChild env
        (st.forks + if op = ['<'] then 0 else k) st1.fds (0 + if op = ['<'] then 0 else k) k
        (redirOf (tokenize cmd)) (flatFds pairs) (argsOf (tokenize cmd)) cs2
      have hf : openFailed (pipelineChild env (st.forks + if op = ['<'] then 0 else k) st1.fds
          (0 + if op = ['<'] then 0 else k) k (redirOf (tokenize cmd)) (flatFds pairs)
          (argsOf (tokenize cmd)) cs2) = true := by
        by_cases ho : op = ['<']
        · exact g1 (by simp [ho]) (hin ho).1 (hin ho).2
        · exact g2 (by simp [ho]) (hout ho).1 (hout ho).2
      refine ⟨hf, ?_⟩
      rw [g3, hf]
      rfl

theorem dangling_redirect_child_fails_witness :
    runCommands (Env.allOk 0) ["cat >".toList, "echo hi".toList] (Shell.start 0) =
      runCommands (Env.allOk 0) ["echo hi".toList]
        (runCommand (Env.allOk 0) (Shell.start 0) "cat >".toList).1 ∧
    (forked ((runCommand (Env.allOk 0) (Shell.start 0) "cat >".toList).1.trace.drop
      (Shell.start 0).trace.length)).length = 0 + 1 ∧
    ∃ c, (forked ((runCommand (Env.allOk 0) (Shell.start 0) "cat >".toList).1.trace.drop
        (Shell.start 0).trace.length))[if ['>'] = ['<'] then 0 else 0]? = some c ∧
      openFailed c = true ∧ execCalls c = [] :=
  dangling_redirect_child_fails (Env.allOk 0) (Shell.start 0) "cat >; echo hi".toList
    "cat >".toList ["echo hi".toList] ["cat".toList] ['>'] 0 (by decide) (by decide) (by decide)
    (by decide) (fun _ => rfl) (fun _ => rfl)

/-- C6, amended: in a pipeline (`k ≥ 1` pipe tokens, every `pipe` and `fork`
call succeeding) a redirection holds for the whole sub-command, in whatever
segment it is written: after the last `<` of the token list comes the file that
the child of the first segment opens read-only and duplicates onto descriptor 0;
after the last `>` or `>>` comes the file that the child of the last segment
opens for writing (truncating when the token list has no `>>`, appending when
it has no `>`) and duplicates onto descriptor 1; without a `<` the first child
opens no file, without `>` and `>>` the last child opens no file, and the
children of the segments in between never open a file. -/
theorem redirect_applies_to_pipeline_ends (env : Env) (st : Shell) (cmd : Str) (k : Nat)
    (hk : (tokenize cmd).count ['|'] = k) (hk1 : 1 ≤ k)
    (hpipe : ∀ n, env.pipeOk n = true) (hfork : ∀ n, env.forkOk n = true) :
    ∃ children, forked ((runCommand env st cmd).1.trace.drop st.trace.length) = children ∧
      children.length = k + 1 ∧
      (∀ pre f post, tokenize cmd = pre ++ ['<'] :: f :: post → ['<'] ∉ f :: post →
        ∃ c, children[0]? = some c ∧ openCalls c = [(some f, OpenMode.rdonly)] ∧
          ((∃ fd X, c.sys = [Sys.openFile (some f) OpenMode.rdonly (some fd), Sys.dup2 fd 0,
              Sys.close fd] ++ X) ∨
            c.sys = [Sys.openFile (some f) OpenMode.rdonly none,
              Sys.perror "open input file failed", Sys.exit 1])) ∧
      (∀ pre op f post, tokenize cmd = pre ++ op :: f :: post →
        op = ['>'] ∨ op = ['>', '>'] → ['>'] ∉ f :: post → ['>', '>'] ∉ f :: post →
        ∃ c mode, children[k]? = some c ∧ openCalls c = [(some f, mode)] ∧
          (mode = OpenMode.truncate ∨ mode = OpenMode.append) ∧
          (['>', '>'] ∉ tokenize cmd → mode = OpenMode.truncate) ∧
          (['>'] ∉ tokenize cmd → mode = OpenMode.append) ∧
          ((∃ fd X, c.sys = [Sys.openFile (some f) mode (some fd), Sys.dup2 fd 1,
              Sys.close fd] ++ X) ∨
            c.sys = [Sys.openFile (some f) mode none,
              Sys.perror "open output file failed", Sys.exit 1])) ∧
      (['<'] ∉ tokenize cmd → ∃ c, children[0]? = some c ∧ openCalls c = []) ∧
      (['>'] ∉ tokenize cmd → ['>', '>'] ∉ tokenize cmd →
        ∃ c, children[k]? = some c ∧ openCalls c = []) ∧
      (∀ i c, 0 < i → i < k → children[i]? = some c → openCalls c = []) := by
  have hpos : 0 < (tokenize cmd).count ['|'] := by omega
  obtain ⟨st1, pairs, _, _, _, h4⟩ := runCommand_pipeline env st cmd hpipe hfork hpos
  simp only [List.append_assoc] at h4
  rw [hk] at h4
  have hforked : forked ((runCommand env st cmd).1.trace.drop st.trace.length) =
      spawnedChildren env k (redirOf (tokenize cmd)) (flatFds pairs) (pipePosOf (tokenize cmd))
        (argsOf (tokenize cmd)) (tokenize cmd).length st1.fds (k + 1) 0 0 st.forks := by
    rw [drop_trace _ _ _ h4]
    simp only [forked_append, forked_pipes, forked_forks, forked_closes, forked_waits,
      List.nil_append, List.append_nil]
  have hflags := detectRedirect_output_flags (tokenize cmd) Redirect.init
  rw [hforked]
  obtain ⟨cs0, hget0⟩ := spawned_get env k (redirOf (tokenize cmd)) (flatFds pairs)
    (pipePosOf (tokenize cmd)) (argsOf (tokenize cmd)) (tokenize cmd).length st1.fds
    (k + 1) 0 0 st.forks 0 (by omega)
  obtain ⟨csk, hgetk⟩ := spawned_get env k (redirOf (tokenize cmd)) (flatFds pairs)
    (pipePosOf (tokenize cmd)) (argsOf (tokenize cmd)) (tokenize cmd).length st1.fds
    (k + 1) 0 0 st.forks k (by omega)
  rw [Nat.zero_add] at hgetk
  refine ⟨_, rfl, ?_, ?_, ?_, ?_, ?_, ?_⟩
  · rw [spawnedChildren_length]
  · intro pre f post htok hlast
    have hr := detectRedirect_input_target pre post f hlast Redirect.init
    rw [← htok] at hr
    have hfirst := pipelineChild_first env (st.forks + 0) st1.fds k hk1
      (redirOf (tokenize cmd)) (flatFds pairs) (argsOf (tokenize cmd)) cs0 hr.1
    have hfile : (redirOf (tokenize cmd)).input_file = some f := hr.2
    rw [hfile] at hfirst
    exact ⟨_, hget0, hfirst⟩
  · intro pre op f post htok hop h1 h2
    have hr := detectRedirect_output_target pre post op f hop h1 h2 Redirect.init
    rw [← htok] at hr
    have hlast := pipelineChild_last env (st.forks + k) st1.fds k hk1
      (redirOf (tokenize cmd)) (flatFds pairs) (argsOf (tokenize cmd)) csk hr.1
    have hfile : (redirOf (tokenize cmd)).output_file = some f := hr.2
    rw [hfile] at hlast
    have hopmem : op ∈ tokenize cmd := by rw [htok]; simp
    refine ⟨_, _, hgetk, hlast.1, ?_, ?_, ?_, hlast.2⟩
    · by_cases ho : (redirOf (tokenize cmd)).output_redirect = true
      · exact Or.inl (if_pos ho)
      · exact Or.inr (if_neg ho)
    · intro hna
      have hopeq : op = ['>'] := by
        rcases hop with hop | hop
        · exact hop
        · exact absurd (hop ▸ hopmem) hna
      have ho : (redirOf (tokenize cmd)).output_redirect = true :=
        hflags.1.mpr (Or.inr (hopeq ▸ hopmem))
      exact if_pos ho
    · intro hno
      have ho : ¬ ((redirOf (tokenize cmd)).output_redirect = true) := by
        intro h
        rcases hflags.1.mp h with h | h
        · exact Bool.noConfusion h
        · exact hno h
      exact if_neg ho
  · intro hni
    have hr := detectRedirect_keeps_input (tokenize cmd) hni Redirect.init
    have hfalse : (redirOf (tokenize cmd)).input_redirect = false := hr.1
    exact ⟨_, hget0, (pipelineChild_ends_no_redirect env (st.forks + 0) st1.fds k hk1
      (redirOf (tokenize cmd)) (flatFds pairs) (argsOf (tokenize cmd)) cs0).1 hfalse⟩
  · intro hno hna
    have hr := detectRedirect_keeps_output (tokenize cmd) hno hna Redirect.init
    have hf1 : (redirOf (tokenize cmd)).output_redirect = false := hr.1
    have hf2 : (redirOf (tokenize cmd)).append_redirect = false := hr.2.1
    exact ⟨_, hgetk, (pipelineChild_ends_no_redirect env (st.forks + k) st1.fds k hk1
      (redirOf (tokenize cmd)) (flatFds pairs) (argsOf (tokenize cmd)) csk).2 hf1 hf2⟩
  · intro i c h0 hik hc
    obtain ⟨cs2, hget⟩ := spawned_get env k (redirOf (tokenize cmd)) (flatFds pairs)
      (pipePosOf (tokenize cmd)) (argsOf (tokenize cmd)) (tokenize cmd).length st1.fds
      (k + 1) 0 0 st.forks i (by omega)
    rw [hget] at hc
    have hc2 := Option.some.inj hc
    rw [← hc2, Nat.zero_add]
    exact pipelineChild_middle env (st.forks + i) st1.fds i k h0 hik _ _ _ _

theorem redirect_applies_to_pipeline_ends_witness :
    ∃ c0 c1,
      (forked ((runCommand (Env.allOk 0) (Shell.start 0)
        "cat > out | wc < f".toList).1.trace.drop (Shell.start 0).trace.length))[0]? =
          some c0 ∧
      openCalls c0 = [(some "f".toList, OpenMode.rdonly)] ∧
      (forked ((runCommand (Env.allOk 0) (Shell.start 0)
        "cat > out | wc < f".toList).1.trace.drop (Shell.start 0).trace.length))[1]? =
          some c1 ∧
      openCalls c1 = [(some "out".toList, OpenMode.truncate)] := by
  obtain ⟨children, h1, _, h3, h4, _⟩ := redirect_applies_to_pipeline_ends (Env.allOk 0)
    (Shell.start 0) "cat > out | wc < f".toList 1 (by decide) (by decide) (fun _ => rfl)
    (fun _ => rfl)
  obtain ⟨c0, hc0, ho0, _⟩ := h3 ["cat".toList, ['>'], "out".toList, ['|'], "wc".toList]
    "f".toList [] (by decide) (by decide)
  obtain ⟨c1, mode, hc1, ho1, _, hm, _⟩ := h4 ["cat".toList] ['>'] "out".toList
    [['|'], "wc".toList, ['<'], "f".toList] (by decide) (Or.inl rfl) (by decide) (by decide)
  have hmode : mode = OpenMode.truncate := hm (by decide)
  rw [hmode] at ho1
  exact ⟨c0, c1, h1 ▸ hc0, ho0, h1 ▸ hc1, ho1⟩

end Cshell
